import Mathlib

/-!
# winman: the Window type (winman/window.go)

A shallow embedding of `winman/window.go`.

* Go pointers (`*Window`, `*Button`, `*Manager`) are addresses into a `Heap`;
  a method with a pointer receiver takes the heap and the receiver's address
  and returns the heap it leaves behind.
* Go `int` is a 64-bit integer held in an `Int`. The sums of `Center`
  (window.go:117-118), whose operands are whatever rects the client set, wrap
  to 64 bits as Go's do (`goAdd`, `goSub`); `/` on Go ints is truncated
  division, `Int.tdiv`. Button offsets grow by 3 per button and button columns
  are a window coordinate plus such an offset; these are kept as plain sums.
* A Go `panic` is an `Outcome.panic` that carries the heap as it was when the
  panic was raised, so that writes made before a panic stay visible.
* Callbacks whose bodies live outside the file (a button's `ClickHandler`,
  the root's mouse handler) are recorded as `Call`s in the handler's result.
* `Draw` returns the heap it leaves and the `DrawCall`s it makes on the screen.
* The manager (z-order, modal stack, mouse routing) is not among the sources
  and is modelled from the specification.
-/

namespace Winman

/-- An address of a heap cell (a non-nil Go pointer). -/
abbrev Ptr := Nat

/-! ## External collaborators (cview, tcell) -/

/-- The mouse actions of cview (`cview.MouseAction`); the file names only
`MouseLeftClick`. -/
inductive MouseAction where
  | MouseMove
  | MouseLeftDown
  | MouseLeftUp
  | MouseLeftClick
  | MouseLeftDoubleClick
  | MouseMiddleDown
  | MouseMiddleUp
  | MouseMiddleClick
  | MouseMiddleDoubleClick
  | MouseRightDown
  | MouseRightUp
  | MouseRightClick
  | MouseRightDoubleClick
  | MouseScrollUp
  | MouseScrollDown
  | MouseScrollLeft
  | MouseScrollRight
  deriving DecidableEq

/-- A mouse event (`tcell.EventMouse`): the file reads only its position. -/
structure EventMouse where
  x : Int
  y : Int
  deriving DecidableEq

/-- The call `event.Position()`. -/
def EventMouse.Position (e : EventMouse) : Int × Int := (e.x, e.y)

/-- The `setFocus func(p cview.Primitive)` argument of a mouse handler: the
file only passes it on, so a token naming the closure is enough. -/
abbrev SetFocus := Nat

/-- The state of a `cview.Box` that this file reads or writes through the
promoted methods `GetRect`, `SetRect`, `HasFocus`, `Focus`, `Blur`,
`SetBorder` and `SetTitle`. -/
structure Box where
  x : Int
  y : Int
  width : Int
  height : Int
  hasFocus : Bool
  border : Bool
  title : String
  deriving DecidableEq

/-- The call `b.GetRect()`: the rect as `(x, y, width, height)`. -/
def Box.GetRect (b : Box) : Int × Int × Int × Int := (b.x, b.y, b.width, b.height)

/-- The call `b.SetRect(x, y, width, height)`. -/
def Box.SetRect (b : Box) (x y width height : Int) : Box :=
  { b with x := x, y := y, width := width, height := height }

/-- The call `b.HasFocus()`. -/
def Box.HasFocus (b : Box) : Bool := b.hasFocus

/-- The call `b.Focus(nil)`: the box takes its focus flag. -/
def Box.Focus (b : Box) : Box := { b with hasFocus := true }

/-- The call `b.Blur()`. -/
def Box.Blur (b : Box) : Box := { b with hasFocus := false }

/-- The call `b.SetBorder(show)`. -/
def Box.SetBorder (b : Box) (shown : Bool) : Box := { b with border := shown }

/-- The content capability held as a window's root (`cview.Primitive`): its
rect, its focus state as `GetFocusable().HasFocus()` reports it, and the
result of its own mouse handler. -/
structure Primitive where
  x : Int
  y : Int
  width : Int
  height : Int
  hasFocus : Bool
  mouseHandler : MouseAction → EventMouse → SetFocus → Bool × Option Ptr

/-- The call `p.Blur()` on a root. -/
def Primitive.Blur (r : Primitive) : Primitive := { r with hasFocus := false }

/-- What the `delegate` callback handed to `Focus` does to the primitive it
is given: to a root, and to a bare box. -/
structure Delegate where
  primitive : Primitive → Primitive
  box : Box → Box

/-- The delegate of the application: it gives the primitive the focus. -/
def Delegate.setFocus : Delegate :=
  { primitive := fun r => { r with hasFocus := true }, box := Box.Focus }

/-! ## Buttons -/

/-- Modelled from the spec: the alignment of a button (Left | Right). The
declaration of the type and of the constant `ButtonRight` is in a file of the
package that is not among the sources. -/
inductive ButtonAlignment where
  | ButtonLeft
  | ButtonRight
  deriving DecidableEq

/-- Modelled from the spec: the `Button` type, declared in a file of the
package that is not among the sources; the fields are the ones `window.go`
uses. `ClickHandler` is `none` for a nil func, else a token naming the
closure. -/
structure Button where
  Symbol : Char
  Alignment : ButtonAlignment
  ClickHandler : Option Nat
  offsetX : Int
  offsetY : Int
  deriving DecidableEq

/-! ## The window and the heap -/

/-- The `Window` struct (window.go:10-24). `manager` and `buttons` hold
pointers; `none` is a nil manager. -/
structure Window where
  Box : Box
  root : Option Primitive
  manager : Option Ptr
  buttons : List Ptr
  border : Bool
  restoreX : Int
  restoreY : Int
  restoreWidth : Int
  restoreHeight : Int
  maximized : Bool
  Draggable : Bool
  Resizable : Bool
  modal : Bool

/-- Modelled from the spec: the `Manager` type, declared in a file of the
package that is not among the sources. It holds the reference rect that
`GetInnerRect` returns, the z-order (index 0 = back, last = front) and the
modal stack (top last). -/
structure Manager where
  innerX : Int
  innerY : Int
  innerWidth : Int
  innerHeight : Int
  windows : List Ptr
  modals : List Ptr
  deriving DecidableEq

/-- Modelled from the spec: `Manager.GetInnerRect()`, the manager's reference
rect, used verbatim by Maximize and Center. -/
def Manager.GetInnerRect (m : Manager) : Int × Int × Int × Int :=
  (m.innerX, m.innerY, m.innerWidth, m.innerHeight)

/-- The memory the program works on: what each window, button and manager
pointer points to. -/
structure Heap where
  windows : Ptr → Window
  buttons : Ptr → Button
  managers : Ptr → Manager

/-- Write a window cell. -/
def Heap.setWindow (h : Heap) (p : Ptr) (w : Window) : Heap :=
  { h with windows := fun q => if q = p then w else h.windows q }

/-- Write a button cell. -/
def Heap.setButton (h : Heap) (p : Ptr) (b : Button) : Heap :=
  { h with buttons := fun q => if q = p then b else h.buttons q }

/-- Write a manager cell. -/
def Heap.setManager (h : Heap) (p : Ptr) (m : Manager) : Heap :=
  { h with managers := fun q => if q = p then m else h.managers q }

/-- The result of a method that may panic. A panic carries the heap at the
moment it was raised. -/
inductive Outcome where
  | ok (h : Heap)
  | panic (msg : String) (h : Heap)

/-- The heap an outcome leaves behind. -/
def Outcome.heap : Outcome → Heap
  | .ok h => h
  | .panic _ h => h

/-- Whether the method returned normally. -/
def Outcome.isOk : Outcome → Bool
  | .ok _ => true
  | .panic _ _ => false

/-! ## window.go -/

/-- The promoted `w.GetRect()`. -/
def Window.GetRect (w : Window) : Int × Int × Int × Int := w.Box.GetRect

/-- The promoted `w.SetRect(x, y, width, height)`. -/
def Window.SetRect (w : Window) (x y width height : Int) : Window :=
  { w with Box := w.Box.SetRect x y width height }

/-- Method `SetBorder` (window.go:146-150), on the window cell. -/
def Window.SetBorder (w : Window) (shown : Bool) : Window :=
  { w with border := shown, Box := w.Box.SetBorder shown }

/-- Constructor `NewWindow` (window.go:27-34). `box` is the box that
`cview.NewBox().SetBackgroundColor(tcell.ColorDefault)` returns. The tuple
assignment of line 31 binds `GetRect()`'s third result (the width) to
`restoreHeight` and its fourth (the height) to `restoreWidth`. The function
takes no manager and leaves the `manager` field nil, although the comment of
window.go:26 speaks of a new window "in this window manager". -/
def NewWindow (box : Box) : Window :=
  let window : Window :=
    { Box := box, root := none, manager := none, buttons := [], border := false,
      restoreX := 0, restoreY := 0, restoreWidth := 0, restoreHeight := 0,
      maximized := false, Draggable := false, Resizable := false, modal := false }
  match window.GetRect with
  | (r0, r1, r2, r3) =>
    let window := { window with restoreX := r0, restoreY := r1, restoreHeight := r2, restoreWidth := r3 }
    window.SetBorder true

/-- Method `SetRoot` (window.go:36-39). -/
def SetRoot (h : Heap) (p : Ptr) (root : Option Primitive) : Heap :=
  h.setWindow p { h.windows p with root := root }

/-- Method `GetRoot` (window.go:41-43). -/
def GetRoot (w : Window) : Option Primitive := w.root

/-- The panic message of `checkManager`. -/
def noManager : String := "Window must be added to a Window Manager to call this method"

/-- The panic message of the Go runtime on a nil pointer. -/
def nilDereference : String := "invalid memory address or nil pointer dereference"

/-- Method `checkManager` (window.go:75-79): the panic message when the window has no
manager. -/
def checkManager (w : Window) : Option String :=
  if w.manager.isNone then some noManager else none

/-- Method `Focus` (window.go:124-131), on the window cell. -/
def Window.Focus (delegate : Delegate) (w : Window) : Window :=
  match w.root with
  | some root => { w with root := some (delegate.primitive root), Box := w.Box.Focus }
  | none => { w with Box := delegate.box w.Box }

/-- Method `Blur` (window.go:133-138), on the window cell. -/
def Window.Blur (w : Window) : Window :=
  match w.root with
  | some root => { w with root := some root.Blur, Box := w.Box.Blur }
  | none => { w with Box := w.Box.Blur }

/-- Method `HasFocus` (window.go:153-159). -/
def HasFocus (w : Window) : Bool :=
  match w.root with
  | some root => root.hasFocus
  | none => w.Box.HasFocus

/-- Method `IsMaximized` (window.go:140-142). -/
def IsMaximized (w : Window) : Bool := w.maximized

/-- Method `SetBorder` (window.go:146-150). -/
def SetBorder (h : Heap) (p : Ptr) (shown : Bool) : Heap :=
  h.setWindow p ((h.windows p).SetBorder shown)

/-- Modelled from the spec: `Manager.Show(window)`, insert if absent, move to
front of z-order, grant it focus (delegating as `Focus` does); the other
windows of the manager lose it. -/
def Manager.Show (h : Heap) (m w : Ptr) : Heap :=
  let mgr := h.managers m
  let others := mgr.windows.filter (fun q => decide (q ≠ w))
  let h1 := others.foldl (fun acc q => acc.setWindow q (acc.windows q).Blur) h
  let h2 := h1.setWindow w ((h1.windows w).Focus Delegate.setFocus)
  h2.setManager m { mgr with windows := others ++ [w] }

/-- Modelled from the spec: `Manager.Hide(window)`, remove the window from the
z-order (and the modal stack), keeping its state; if it held focus, focus goes
to the new frontmost remaining window, or to none. -/
def Manager.Hide (h : Heap) (m w : Ptr) : Heap :=
  let mgr := h.managers m
  let others := mgr.windows.filter (fun q => decide (q ≠ w))
  let held := HasFocus (h.windows w)
  let h1 := h.setManager m
    { mgr with windows := others, modals := mgr.modals.filter (fun q => decide (q ≠ w)) }
  if held then
    let h2 := h1.setWindow w (h1.windows w).Blur
    match others.getLast? with
    | some f => h2.setWindow f ((h2.windows f).Focus Delegate.setFocus)
    | none => h2
  else h1

/-- Modelled from the spec: `Manager.ShowModal(window)`, behaves as Show,
additionally marking the window modal and pushing it on the modal stack. -/
def Manager.ShowModal (h : Heap) (m w : Ptr) : Heap :=
  let h1 := Manager.Show h m w
  let h2 := h1.setWindow w { h1.windows w with modal := true }
  let mgr := h2.managers m
  h2.setManager m { mgr with modals := mgr.modals.filter (fun q => decide (q ≠ w)) ++ [w] }

/-- Method `Show` (window.go:81-85). -/
def Show (h : Heap) (p : Ptr) : Outcome :=
  match checkManager (h.windows p) with
  | some msg => .panic msg h
  | none =>
    match (h.windows p).manager with
    | none => .panic nilDereference h
    | some m => .ok (Manager.Show h m p)

/-- Method `Hide` (window.go:87-91). -/
def Hide (h : Heap) (p : Ptr) : Outcome :=
  match checkManager (h.windows p) with
  | some msg => .panic msg h
  | none =>
    match (h.windows p).manager with
    | none => .panic nilDereference h
    | some m => .ok (Manager.Hide h m p)

/-- Method `Maximize` (window.go:93-99). Line 95 binds `GetRect()`'s third result
(the width) to `restoreHeight` and its fourth (the height) to `restoreWidth`;
the write of the restore fields comes before the manager is dereferenced. -/
def Maximize (h : Heap) (p : Ptr) : Outcome :=
  match checkManager (h.windows p) with
  | some msg => .panic msg h
  | none =>
    let w := h.windows p
    match w.GetRect with
    | (r0, r1, r2, r3) =>
      let w1 := { w with restoreX := r0, restoreY := r1, restoreHeight := r2, restoreWidth := r3 }
      match w1.manager with
      | none => .panic nilDereference (h.setWindow p w1)
      | some m =>
        match (h.managers m).GetInnerRect with
        | (mx, my, mw, mh) =>
          let w2 := w1.SetRect mx my mw mh
          .ok (h.setWindow p { w2 with maximized := true })

/-- Method `Restore` (window.go:101-105): `SetRect` receives `restoreHeight` as the
width and `restoreWidth` as the height. -/
def Restore (h : Heap) (p : Ptr) : Heap :=
  let w := h.windows p
  let w1 := w.SetRect w.restoreX w.restoreY w.restoreHeight w.restoreWidth
  h.setWindow p { w1 with maximized := false }

/-- Method `ShowModal` (window.go:107-111). -/
def ShowModal (h : Heap) (p : Ptr) : Outcome :=
  match checkManager (h.windows p) with
  | some msg => .panic msg h
  | none =>
    match (h.windows p).manager with
    | none => .panic nilDereference h
    | some m => .ok (Manager.ShowModal h m p)

/-- The least Go `int` (64 bits). -/
def minInt : Int := -9223372036854775808

/-- The greatest Go `int` (64 bits). -/
def maxInt : Int := 9223372036854775807

/-- Whether an integer is a value of Go's `int`. -/
def inRange (z : Int) : Bool := decide (minInt ≤ z) && decide (z ≤ maxInt)

/-- The 64-bit two's complement value an exact result wraps to. -/
def wrap64 (z : Int) : Int :=
  (z + 9223372036854775808) % 18446744073709551616 - 9223372036854775808

/-- Go's `a + b` on `int`: the sum wrapped to 64 bits. Integers outside the
range, which no Go variable holds, are added as they are. -/
def goAdd (a b : Int) : Int :=
  if inRange a && inRange b then wrap64 (a + b) else a + b

/-- Go's `a - b` on `int`: the difference wrapped to 64 bits. Integers outside
the range, which no Go variable holds, are subtracted as they are. -/
def goSub (a b : Int) : Int :=
  if inRange a && inRange b then wrap64 (a - b) else a - b

/-- Method `Center` (window.go:113-121); the sums wrap as Go's do and `/`
truncates toward zero (halving a Go int stays in range). -/
def Center (h : Heap) (p : Ptr) : Outcome :=
  match checkManager (h.windows p) with
  | some msg => .panic msg h
  | none =>
    let w := h.windows p
    match w.manager with
    | none => .panic nilDereference h
    | some m =>
      match (h.managers m).GetInnerRect with
      | (mx, my, mw, mh) =>
        match w.GetRect with
        | (_, _, width, height) =>
          let x := goAdd mx ((goSub mw width).tdiv 2)
          let y := goAdd my ((goSub mh height).tdiv 2)
          .ok (h.setWindow p (w.SetRect x y width height))

/-- A callback invoked by the mouse handler: `button.ClickHandler()` of the
button at `button`, or the root's own mouse handler. -/
inductive Call where
  | click (button : Ptr) (handler : Nat)
  | rootMouse (action : MouseAction) (event : EventMouse) (setFocus : SetFocus)
  deriving DecidableEq

/-- What a mouse handler returns (`consumed`, `capture`), with the callbacks
it invoked on the way, in order. -/
structure MouseResult where
  consumed : Bool
  capture : Option Ptr
  calls : List Call
  deriving DecidableEq

/-- The type of a mouse handler. -/
abbrev Handler := MouseAction → EventMouse → SetFocus → MouseResult

/-- The call `w.WrapMouseHandler(f)` of cview's Box, for a box with no mouse
capture installed, which is how `NewBox` builds it: the wrapped handler gets
the event as it came and its result is returned. -/
def WrapMouseHandler (f : Handler) : Handler := f

/-- The test of window.go:168: the event column `x` is the column of
`button` in a window whose rect starts at `wx` and is `width` wide. -/
def hits (button : Button) (x wx width : Int) : Bool :=
  (decide (button.offsetX ≥ 0) && decide (x = wx + button.offsetX))
    || (decide (button.offsetX < 0) && decide (x = wx + width + button.offsetX))

/-- The loop of window.go:167-174 over the buttons still to be tested:
`some r` when it returned `r` from inside the loop, `none` when it fell
through. -/
def MouseHandler.loop (h : Heap) (x wx width : Int) : List Ptr → Option MouseResult
  | [] => none
  | b :: rest =>
    let button := h.buttons b
    if hits button x wx width then
      match button.ClickHandler with
      | some f => some { consumed := true, capture := none, calls := [Call.click b f] }
      | none => some { consumed := true, capture := none, calls := [] }
    else MouseHandler.loop h x wx width rest

/-- Method `MouseHandler` (window.go:161-182): the handler of the window at `p`. -/
def MouseHandler (h : Heap) (p : Ptr) : Handler :=
  WrapMouseHandler (fun action event setFocus =>
    let w := h.windows p
    let returned : Option MouseResult :=
      if action = MouseAction.MouseLeftClick then
        match event.Position, w.GetRect with
        | (x, y), (wx, wy, width, _) =>
          if y = wy then MouseHandler.loop h x wx width w.buttons else none
      else none
    match returned with
    | some r => r
    | none =>
      match w.root with
      | some root =>
        match root.mouseHandler action event setFocus with
        | (consumed, capture) =>
          { consumed := consumed, capture := capture,
            calls := [Call.rootMouse action event setFocus] }
      | none => { consumed := false, capture := none, calls := [] })

/-- The loop of window.go:188-196 over the buttons still to be visited, with
the two running offsets. -/
def AddButton.loop (h : Heap) : List Ptr → Int → Int → Heap
  | [], _, _ => h
  | b :: rest, offsetLeft, offsetRight =>
    let button := h.buttons b
    if button.Alignment = ButtonAlignment.ButtonRight then
      AddButton.loop (h.setButton b { button with offsetX := offsetRight }) rest
        offsetLeft (offsetRight - 3)
    else
      AddButton.loop (h.setButton b { button with offsetX := offsetLeft }) rest
        (offsetLeft + 3) offsetRight

/-- Method `AddButton` (window.go:184-199); `button` is a non-nil `*Button`. -/
def AddButton (h : Heap) (p : Ptr) (button : Ptr) : Heap :=
  let w := h.windows p
  let h1 := h.setWindow p { w with buttons := w.buttons ++ [button] }
  AddButton.loop h1 (h1.windows p).buttons 2 (-3)

/-- The Go index expression `s[i]`: `none` stands for the runtime panic on an
index out of range. -/
def index (s : List Ptr) (i : Int) : Option Ptr :=
  if i < 0 then none else s[i.toNat]?

/-- Method `GetButton` (window.go:201-206): `.ok none` is the nil result, `.error`
a runtime panic of the index expression. -/
def GetButton (w : Window) (i : Int) : Except String (Option Ptr) :=
  if i < 0 ∨ i ≥ (w.buttons.length : Int) then .ok none
  else
    match index w.buttons i with
    | some b => .ok (some b)
    | none => .error "index out of range"

/-- Method `ButtonCount` (window.go:208-210). -/
def ButtonCount (w : Window) : Int := (w.buttons.length : Int)

/-! ## Sequences of operations -/

/-- The operations on a window that the properties below range over.
`SetManager` is the write of the `manager` field by which the manager wires a
window to itself. -/
inductive Op where
  | Maximize
  | Restore
  | Center
  | AddButton (button : Ptr)
  | SetBorder (shown : Bool)
  | SetRoot (root : Option Primitive)
  | SetRect (x y width height : Int)
  | SetManager (m : Option Ptr)

/-- One operation on the window at `p`. -/
def Op.apply (h : Heap) (p : Ptr) : Op → Outcome
  | .Maximize => Winman.Maximize h p
  | .Restore => .ok (Winman.Restore h p)
  | .Center => Winman.Center h p
  | .AddButton b => .ok (Winman.AddButton h p b)
  | .SetBorder shown => .ok (Winman.SetBorder h p shown)
  | .SetRoot root => .ok (Winman.SetRoot h p root)
  | .SetRect x y width height => .ok (h.setWindow p ((h.windows p).SetRect x y width height))
  | .SetManager m => .ok (h.setWindow p { h.windows p with manager := m })

/-- A sequence of operations on the window at `p`, stopping at the first
panic. -/
def run (h : Heap) (p : Ptr) : List Op → Outcome
  | [] => .ok h
  | op :: rest =>
    match op.apply h p with
    | .ok h1 => run h1 p rest
    | .panic msg h1 => .panic msg h1

/-- The operations of the Window type that change its geometry or decoration:
Maximize, Restore, Center, AddButton, SetBorder and SetRoot. -/
def Op.isWindowOp : Op → Bool
  | .Maximize | .Restore | .Center | .AddButton _ | .SetBorder _ | .SetRoot _ => true
  | .SetRect _ _ _ _ | .SetManager _ => false

/-- Every operation but Maximize. -/
def Op.isNotMaximize : Op → Bool
  | .Maximize => false
  | _ => true

/-- A sequence of `AddButton` calls on the window at `p`. -/
def addButtons (h : Heap) (p : Ptr) : List Ptr → Heap
  | [] => h
  | b :: rest => addButtons (AddButton h p b) p rest

/-- The column of the screen on which `Draw` (window.go:61-64) puts the glyph
of `button` in a window whose rect starts at `x` and is `width` wide. -/
def Button.column (button : Button) (x width : Int) : Int :=
  if button.offsetX < 0 then button.offsetX + x + width else button.offsetX + x

/-- Whether the button at `b` is right-aligned (the test of window.go:189). -/
def isRight (h : Heap) (b : Ptr) : Bool :=
  decide ((h.buttons b).Alignment = ButtonAlignment.ButtonRight)

/-- The number of right-aligned buttons among the first `i` of `bs`. -/
def rightBefore (h : Heap) (bs : List Ptr) (i : Nat) : Nat :=
  (bs.take i).countP (fun b => isRight h b)

/-- The number of buttons that are not right-aligned among the first `i` of
`bs`. -/
def leftBefore (h : Heap) (bs : List Ptr) (i : Nat) : Nat :=
  (bs.take i).countP (fun b => !isRight h b)

/-! ## Draw -/

/-- The call `b.GetInnerRect()` of cview's Box, for a box without padding: the
rect minus the border thickness, never of negative size. -/
def Box.GetInnerRect (b : Box) : Int × Int × Int × Int :=
  if b.border then (b.x + 1, b.y + 1, max (b.width - 2) 0, max (b.height - 2) 0)
  else (b.x, b.y, max b.width 0, max b.height 0)

/-- The call `p.SetRect(x, y, width, height)` on a root. -/
def Primitive.SetRect (r : Primitive) (x y width height : Int) : Primitive :=
  { r with x := x, y := y, width := width, height := height }

/-- What `Draw` asks of its collaborators, in order: `w.Box.Draw(screen)`, the
root's `Draw` on the clip region `(x, y, width, height)`, and `cview.Print` of
`text` at `(x, y)` with the given maximal width on the clip region `clip`. -/
inductive DrawCall where
  | box (b : Box)
  | root (x y width height : Int)
  | print (text : String) (x y maxWidth : Int) (clip : Int × Int × Int × Int)
  deriving DecidableEq

/-- The text `fmt.Sprintf("[%c]", symbol)` as `cview.Print` shows it. -/
def bracketed (symbol : Char) : String := "[" ++ String.singleton symbol ++ "]"

/-- The loop of window.go:60-71 over the buttons still to be drawn, for the
window rect `(x, y, width, height)`. -/
def Draw.loop (h : Heap) (x y width height : Int) : List Ptr → List DrawCall
  | [] => []
  | b :: rest =>
    let button := h.buttons b
    let buttonX := button.offsetX + x
    let buttonY := button.offsetY + y
    let buttonX := if button.offsetX < 0 then buttonX + width else buttonX
    let buttonY := if button.offsetY < 0 then buttonY + height else buttonY
    DrawCall.print (bracketed button.Symbol) (buttonX - 1) buttonY 9 (x, y, width, height)
      :: Draw.loop h x y width height rest

/-- Method `Draw` (window.go:45-73): the heap it leaves and the calls it makes.
The root keeps its focus state through `SetRect` and its own `Draw`. -/
def Draw (h : Heap) (p : Ptr) : Heap × List DrawCall :=
  let w := h.windows p
  let w := if w.Box.HasFocus && !(HasFocus w) then { w with Box := w.Box.Blur } else w
  let calls := [DrawCall.box w.Box]
  let drawn : Window × List DrawCall :=
    match w.root with
    | some root =>
      match w.Box.GetInnerRect with
      | (x, y, width, height) =>
        ({ w with root := some (root.SetRect x y width height) },
          calls ++ [DrawCall.root x y width height])
    | none => (w, calls)
  let w := drawn.1
  let calls := drawn.2
  let calls :=
    if w.border then
      match w.GetRect with
      | (x, y, width, height) => calls ++ Draw.loop h x y width height w.buttons
    else calls
  (h.setWindow p w, calls)

/-- The screen cell in which a `Print` call of `Draw` puts the glyph of a
button: the second character of the bracketed text, one column right of where
the text starts (the maximal width 9 leaves room for it), provided that cell
lies in the clip region of window.go:59; a cell outside the clip region is not
written, and then there is none. -/
def DrawCall.glyphCell : DrawCall → Option (Int × Int)
  | .print _ x y _ (cx, cy, cw, ch) =>
    if cx ≤ x + 1 ∧ x + 1 < cx + cw ∧ cy ≤ y ∧ y < cy + ch then some (x + 1, y) else none
  | _ => none

/-! ## The manager's mouse routing -/

/-- Whether the position `(px, py)` lies in the rect of `w`. -/
def InRect (w : Window) (px py : Int) : Bool :=
  decide (w.Box.x ≤ px) && decide (px < w.Box.x + w.Box.width)
    && decide (w.Box.y ≤ py) && decide (py < w.Box.y + w.Box.height)

/-- Modelled from the spec: the windows of the manager that may receive input,
back to front. With an empty modal stack these are all of the z-order; else
only the topmost modal window and anything stacked above it. The manager's
code is in a file of the package that is not among the sources. -/
def Manager.eligible (mgr : Manager) : List Ptr :=
  match mgr.modals.getLast? with
  | none => mgr.windows
  | some top => mgr.windows.dropWhile (fun q => decide (q ≠ top))

/-- What the manager's mouse handler returns, with the windows whose mouse
handler it invoked, the callbacks those invoked, and the heap it leaves. -/
structure ManagerMouseResult where
  consumed : Bool
  capture : Option Ptr
  handlers : List Ptr
  calls : List Call
  heap : Heap

/-- Modelled from the spec: `Manager.MouseHandler`, which is in a file of the
package that is not among the sources. Hit-test front-to-back by rect
containment among the eligible windows; the first (frontmost) rect containing
the position consumes the event via its own MouseHandler; with a non-empty
modal stack an event that reaches no eligible window is swallowed, never
forwarded to the windows below; the routing itself writes nothing. -/
def Manager.MouseHandler (h : Heap) (m : Ptr) (action : MouseAction) (event : EventMouse)
    (setFocus : SetFocus) : ManagerMouseResult :=
  let mgr := h.managers m
  match event.Position with
  | (px, py) =>
    match (Manager.eligible mgr).reverse.find? (fun q => InRect (h.windows q) px py) with
    | some q =>
      let r := Winman.MouseHandler h q action event setFocus
      { consumed := true, capture := r.capture, handlers := [q], calls := r.calls, heap := h }
    | none =>
      { consumed := !mgr.modals.isEmpty, capture := none, handlers := [], calls := [],
        heap := h }

/-- Two states of a window that agree on the rect, the title, the button list
and the owning manager. -/
def sameGeometry (w1 w2 : Window) : Prop :=
  w1.GetRect = w2.GetRect ∧ w1.Box.title = w2.Box.title ∧ w1.buttons = w2.buttons ∧
    w1.manager = w2.manager

/-! ## Sample inputs -/

/-- A sample heap. Window 0 is a 10x5 window at (2, 3) wired to manager 0,
with no buttons; every other window is a new, unattached window on a 15x10
box. Every manager has the inner rect (0, 0, 100, 40). Button `b` is
right-aligned when `b` is odd and has the click handler `b + 100`, except
button 0, which has none. -/
def sampleHeap : Heap :=
  { windows := fun q =>
      if q = 0 then
        { NewWindow { x := 2, y := 3, width := 10, height := 5, hasFocus := false,
                      border := false, title := "" } with manager := some 0 }
      else
        NewWindow { x := 0, y := 0, width := 15, height := 10, hasFocus := false,
                    border := false, title := "" }
    buttons := fun b =>
      { Symbol := 'X'
        Alignment := if b % 2 = 1 then ButtonAlignment.ButtonRight else ButtonAlignment.ButtonLeft
        ClickHandler := if b = 0 then none else some (b + 100)
        offsetX := 0
        offsetY := 0 }
    managers := fun _ =>
      { innerX := 0, innerY := 0, innerWidth := 100, innerHeight := 40, windows := [],
        modals := [] } }

/-- The sample heap after AddButton(2) and AddButton(1) on window 0, whose
rect is (2, 3, 10, 5): the left-aligned button 2 is drawn in column 4, the
right-aligned button 1 in column 9, both on row 3. -/
def sampleButtonsHeap : Heap := addButtons sampleHeap 0 [2, 1]

/-- The sample heap with window 0 narrowed to width 5, rect (2, 3, 5, 5): a
left-aligned button of offset 2 and a right-aligned one of offset -3 both fall
in column 4. -/
def sampleNarrowHeap : Heap :=
  sampleHeap.setWindow 0 ((sampleHeap.windows 0).SetRect 2 3 5 5)

/-- The sample heap with a second window wired to manager 0: window 1 has the
rect (8, 5, 10, 5), which overlaps the rect (2, 3, 10, 5) of window 0 in
columns 8 to 11 and rows 5 to 7. -/
def sampleTwoHeap : Heap :=
  sampleHeap.setWindow 1
    { NewWindow { x := 8, y := 5, width := 10, height := 5, hasFocus := false,
                  border := false, title := "" } with manager := some 0 }

/-- The sample heap with every manager moved to the far right of the int
range: inner rect (9223372036854775807, 0, 100, 40). -/
def sampleFarHeap : Heap :=
  { sampleHeap with
    managers := fun _ =>
      { innerX := maxInt, innerY := 0, innerWidth := 100, innerHeight := 40, windows := [],
        modals := [] } }

/-- The sample heap with two windows after window 0 got the title "Window0"
and the buttons 2 and 1, and both windows were shown, window 1 first: the
z-order is [1, 0] and window 0 has the focus. -/
def sampleShownHeap : Heap :=
  Manager.Show
    (Manager.Show
      (addButtons
        (sampleTwoHeap.setWindow 0
          { sampleTwoHeap.windows 0 with
            Box := { (sampleTwoHeap.windows 0).Box with title := "Window0" } })
        0 [2, 1])
      0 1)
    0 0

/-- The sample heap with window 0 narrowed to width 2, rect (2, 3, 2, 5): the
column 4 of a left-aligned button of offset 2 is outside the rect. -/
def sampleTinyHeap : Heap :=
  sampleHeap.setWindow 0 ((sampleHeap.windows 0).SetRect 2 3 2 5)

/-- The sample window with buttons, with the offsetY of button 2 set to 1, a
value that `Draw` provides for (window.go:61, 65-67) and that `AddButton`
neither assigns nor resets. -/
def sampleLowHeap : Heap :=
  sampleButtonsHeap.setButton 2 { sampleButtonsHeap.buttons 2 with offsetY := 1 }

/-! ## Heap lemmas -/

@[simp]
theorem setWindow_windows (h : Heap) (p : Ptr) (w : Window) (q : Ptr) :
    (h.setWindow p w).windows q = if q = p then w else h.windows q := rfl

@[simp]
theorem setWindow_buttons (h : Heap) (p : Ptr) (w : Window) :
    (h.setWindow p w).buttons = h.buttons := rfl

@[simp]
theorem setWindow_managers (h : Heap) (p : Ptr) (w : Window) :
    (h.setWindow p w).managers = h.managers := rfl

@[simp]
theorem setButton_windows (h : Heap) (p : Ptr) (b : Button) :
    (h.setButton p b).windows = h.windows := rfl

@[simp]
theorem setButton_buttons (h : Heap) (p : Ptr) (b : Button) (q : Ptr) :
    (h.setButton p b).buttons q = if q = p then b else h.buttons q := rfl

@[simp]
theorem setButton_managers (h : Heap) (p : Ptr) (b : Button) :
    (h.setButton p b).managers = h.managers := rfl

theorem checkManager_attached (w : Window) (m : Ptr) (hm : w.manager = some m) :
    checkManager w = none := by
  simp [checkManager, hm]

theorem checkManager_unattached (w : Window) (hm : w.manager = none) :
    checkManager w = some noManager := by
  simp [checkManager, hm]

/-- Maximize on an attached window, spelled out. -/
theorem Maximize_attached (h : Heap) (p m : Ptr) (hm : (h.windows p).manager = some m) :
    Maximize h p = .ok (h.setWindow p
      { h.windows p with
        Box := (h.windows p).Box.SetRect (h.managers m).innerX (h.managers m).innerY
          (h.managers m).innerWidth (h.managers m).innerHeight
        restoreX := (h.windows p).Box.x
        restoreY := (h.windows p).Box.y
        restoreHeight := (h.windows p).Box.width
        restoreWidth := (h.windows p).Box.height
        maximized := true }) := by
  simp [Maximize, checkManager_attached _ m hm, hm, Window.GetRect, Box.GetRect,
    Manager.GetInnerRect, Window.SetRect]

/-! ## Go arithmetic -/

theorem inRange_iff (z : Int) :
    inRange z = true ↔ -9223372036854775808 ≤ z ∧ z ≤ 9223372036854775807 := by
  simp [inRange, minInt, maxInt]

theorem wrap64_of_inRange (z : Int) (hz : inRange z = true) : wrap64 z = z := by
  rw [inRange_iff] at hz
  unfold wrap64
  omega

/-- A sum that fits is not changed by the wrapping. -/
theorem goAdd_of_inRange (a b : Int) (hz : inRange (a + b) = true) : goAdd a b = a + b := by
  unfold goAdd
  split
  · exact wrap64_of_inRange _ hz
  · rfl

/-- A difference that fits is not changed by the wrapping. -/
theorem goSub_of_inRange (a b : Int) (hz : inRange (a - b) = true) : goSub a b = a - b := by
  unfold goSub
  split
  · exact wrap64_of_inRange _ hz
  · rfl

theorem goSub_self (a : Int) : goSub a a = 0 := by
  rw [goSub_of_inRange a a (by rw [Int.sub_self]; decide), Int.sub_self]

theorem goAdd_zero (a : Int) : goAdd a 0 = a := by
  unfold goAdd
  split
  · rename_i hg
    simp only [Bool.and_eq_true] at hg
    rw [Int.add_zero]
    exact wrap64_of_inRange a hg.1
  · exact Int.add_zero a

/-- Center on an attached window, spelled out. -/
theorem Center_attached (h : Heap) (p m : Ptr) (hm : (h.windows p).manager = some m) :
    Center h p = .ok (h.setWindow p ((h.windows p).SetRect
      (goAdd (h.managers m).innerX
        ((goSub (h.managers m).innerWidth (h.windows p).Box.width).tdiv 2))
      (goAdd (h.managers m).innerY
        ((goSub (h.managers m).innerHeight (h.windows p).Box.height).tdiv 2))
      (h.windows p).Box.width (h.windows p).Box.height)) := by
  simp [Center, checkManager_attached _ m hm, hm, Window.GetRect, Box.GetRect,
    Manager.GetInnerRect]

/-! ## C1: Maximize then Restore -/

/-- C1: for every window attached to a manager and every current rect,
Maximize() returns normally, and Restore() right after it leaves the window's
rect equal to the rect it had right before Maximize(), with maximized =
false. -/
theorem maximize_restore_roundtrip (h : Heap) (p m : Ptr)
    (hm : (h.windows p).manager = some m) :
    ∃ h1, Maximize h p = .ok h1 ∧
      ((Restore h1 p).windows p).GetRect = (h.windows p).GetRect ∧
      IsMaximized ((Restore h1 p).windows p) = false := by
  refine ⟨_, Maximize_attached h p m hm, ?_, ?_⟩
  · simp [Restore, Window.GetRect, Window.SetRect, Box.GetRect, Box.SetRect]
  · simp [Restore, IsMaximized]

/-- C1 at window 0 of the sample heap (rect (2, 3, 10, 5), width ≠ height). -/
theorem maximize_restore_roundtrip_witness :
    (sampleHeap.windows 0).manager = some 0 ∧
    ∃ h1, Maximize sampleHeap 0 = .ok h1 ∧
      ((Restore h1 0).windows 0).GetRect = (sampleHeap.windows 0).GetRect ∧
      IsMaximized ((Restore h1 0).windows 0) = false :=
  ⟨rfl, maximize_restore_roundtrip sampleHeap 0 0 rfl⟩

/-! ## C3: Center -/

/-- C3: for every window of rect (x, y, width, height) attached to a manager
whose inner rect is (mx, my, mw, mh), Center() returns normally and sets the
rect to (mx + (mw - width)/2, my + (mh - height)/2, width, height), the sums
and the division being Go's: the size is unchanged, and whenever the
differences and sums fit Go's int the origin is the exact
(mx + (mw - width)/2, my + (mh - height)/2) with truncated division; a 10x5
window in the inner rect (0, 0, 100, 40) ends with top-left (45, 17). -/
theorem center_rect (h : Heap) (p m : Ptr) (x y width height mx my mw mh : Int)
    (hm : (h.windows p).manager = some m)
    (hr : (h.windows p).GetRect = (x, y, width, height))
    (hi : (h.managers m).GetInnerRect = (mx, my, mw, mh)) :
    ∃ h1, Center h p = .ok h1 ∧
      (h1.windows p).GetRect
        = (goAdd mx ((goSub mw width).tdiv 2), goAdd my ((goSub mh height).tdiv 2),
            width, height) ∧
      (inRange (mw - width) = true → inRange (mx + (mw - width).tdiv 2) = true →
        inRange (mh - height) = true → inRange (my + (mh - height).tdiv 2) = true →
        (h1.windows p).GetRect
          = (mx + (mw - width).tdiv 2, my + (mh - height).tdiv 2, width, height)) ∧
      ((width, height) = (10, 5) → (mx, my, mw, mh) = (0, 0, 100, 40) →
        (h1.windows p).GetRect = (45, 17, 10, 5)) := by
  simp only [Window.GetRect, Box.GetRect, Manager.GetInnerRect, Prod.mk.injEq] at hr hi
  obtain ⟨hx, hy, hw, hh⟩ := hr
  obtain ⟨h1x, h1y, h1w, h1h⟩ := hi
  have hrect : ((h.setWindow p ((h.windows p).SetRect
      (goAdd (h.managers m).innerX
        ((goSub (h.managers m).innerWidth (h.windows p).Box.width).tdiv 2))
      (goAdd (h.managers m).innerY
        ((goSub (h.managers m).innerHeight (h.windows p).Box.height).tdiv 2))
      (h.windows p).Box.width (h.windows p).Box.height)).windows p).GetRect
      = (goAdd mx ((goSub mw width).tdiv 2), goAdd my ((goSub mh height).tdiv 2),
          width, height) := by
    simp [Window.GetRect, Window.SetRect, Box.GetRect, Box.SetRect, hw, hh, h1x, h1y, h1w, h1h]
  refine ⟨_, Center_attached h p m hm, hrect, ?_, ?_⟩
  · intro r1 r2 r3 r4
    rw [hrect, goSub_of_inRange mw width r1, goSub_of_inRange mh height r3,
      goAdd_of_inRange _ _ r2, goAdd_of_inRange _ _ r4]
  · intro hs hmgr
    simp only [Prod.mk.injEq] at hs hmgr
    obtain ⟨rfl, rfl⟩ := hs
    obtain ⟨rfl, rfl, rfl, rfl⟩ := hmgr
    rw [hrect]
    decide

/-- C3 at window 0 of the sample heap: the 10x5 window in (0, 0, 100, 40). -/
theorem center_rect_witness :
    ∃ h1, Center sampleHeap 0 = .ok h1 ∧ (h1.windows 0).GetRect = (45, 17, 10, 5) :=
  match center_rect sampleHeap 0 0 2 3 10 5 0 0 100 40 rfl rfl rfl with
  | ⟨h1, hc, _, _, hex⟩ => ⟨h1, hc, hex rfl rfl⟩

/-! ## C7: the manager precondition -/

/-- C7: each of Show, Hide, Maximize, Center and ShowModal, called on a window
with no attached manager, panics with the heap exactly as it was before the
call (so the window's rect, restore rect, maximized flag and button list are
untouched); and Maximize and Center panic only if the manager is absent. -/
theorem unattached_panics_unchanged (h : Heap) (p : Ptr) :
    ((h.windows p).manager = none →
      Show h p = .panic noManager h ∧ Hide h p = .panic noManager h ∧
      Maximize h p = .panic noManager h ∧ Center h p = .panic noManager h ∧
      ShowModal h p = .panic noManager h) ∧
    ((Maximize h p).isOk = false ↔ (h.windows p).manager = none) ∧
    ((Center h p).isOk = false ↔ (h.windows p).manager = none) := by
  refine ⟨?_, ?_, ?_⟩
  · intro hm
    simp [Show, Hide, Maximize, Center, ShowModal, checkManager_unattached _ hm]
  · cases hm : (h.windows p).manager with
    | none => simp [Maximize, checkManager_unattached _ hm, Outcome.isOk]
    | some m => simp [Maximize_attached h p m hm, Outcome.isOk]
  · cases hm : (h.windows p).manager with
    | none => simp [Center, checkManager_unattached _ hm, Outcome.isOk]
    | some m => simp [Center_attached h p m hm, Outcome.isOk]

/-- C7 at window 1 of the sample heap, a new window not wired to a manager. -/
theorem unattached_panics_unchanged_witness :
    (sampleHeap.windows 1).manager = none ∧
    Show sampleHeap 1 = .panic noManager sampleHeap ∧
    Hide sampleHeap 1 = .panic noManager sampleHeap ∧
    Maximize sampleHeap 1 = .panic noManager sampleHeap ∧
    Center sampleHeap 1 = .panic noManager sampleHeap ∧
    ShowModal sampleHeap 1 = .panic noManager sampleHeap :=
  ⟨rfl, (unattached_panics_unchanged sampleHeap 1).1 rfl⟩

/-! ## C8: the saved restore rect -/

/-- C8: after Maximize() on an attached window of rect (x, y, width, height)
the fields are restoreX = x and restoreY = y, but restoreWidth = height and
restoreHeight = width; on window 0 of the sample heap, of rect (2, 3, 10, 5),
restoreWidth is 5 and restoreHeight is 10, so the restore rect is not the
rect field for field. -/
theorem maximize_saves_size_swapped :
    (∀ (h : Heap) (p m : Ptr), (h.windows p).manager = some m →
      ∃ h1, Maximize h p = .ok h1 ∧
        (h1.windows p).restoreX = (h.windows p).Box.x ∧
        (h1.windows p).restoreY = (h.windows p).Box.y ∧
        (h1.windows p).restoreWidth = (h.windows p).Box.height ∧
        (h1.windows p).restoreHeight = (h.windows p).Box.width) ∧
    (sampleHeap.windows 0).GetRect = (2, 3, 10, 5) ∧
    ∃ h1, Maximize sampleHeap 0 = .ok h1 ∧
      (h1.windows 0).restoreWidth = 5 ∧ (h1.windows 0).restoreHeight = 10 ∧
      ¬ ((h1.windows 0).restoreWidth = 10 ∧ (h1.windows 0).restoreHeight = 5) := by
  refine ⟨?_, rfl, ?_⟩
  · intro h p m hm
    exact ⟨_, Maximize_attached h p m hm, by simp⟩
  · refine ⟨_, Maximize_attached sampleHeap 0 0 rfl, ?_⟩
    simp [sampleHeap, NewWindow, Window.GetRect, Box.GetRect, Window.SetBorder, Box.SetBorder]

/-! ## Frame lemmas for the button loop -/

theorem AddButton_loop_windows (l : List Ptr) :
    ∀ (h : Heap) (a b : Int), (AddButton.loop h l a b).windows = h.windows := by
  induction l with
  | nil => intro h a b; rfl
  | cons c rest ih =>
    intro h a b
    unfold AddButton.loop
    dsimp only
    split <;> rw [ih] <;> rfl

theorem AddButton_loop_managers (l : List Ptr) :
    ∀ (h : Heap) (a b : Int), (AddButton.loop h l a b).managers = h.managers := by
  induction l with
  | nil => intro h a b; rfl
  | cons c rest ih =>
    intro h a b
    unfold AddButton.loop
    dsimp only
    split <;> rw [ih] <;> rfl

/-- AddButton changes, of the window it is called on, the button list only. -/
theorem AddButton_windows (h : Heap) (p b : Ptr) :
    (AddButton h p b).windows p
      = { h.windows p with buttons := (h.windows p).buttons ++ [b] } := by
  simp [AddButton, AddButton_loop_windows]

theorem AddButton_managers (h : Heap) (p b : Ptr) :
    (AddButton h p b).managers = h.managers := by
  simp [AddButton, AddButton_loop_managers]

/-! ## C9: while maximized, the rect is the manager's inner rect -/

/-- One operation of the Window type keeps the window attached, leaves the
managers alone and keeps "maximized implies rect = inner rect". -/
theorem apply_keeps_maximized_rect (h : Heap) (p m : Ptr) (op : Op)
    (hm : (h.windows p).manager = some m)
    (hinv : (h.windows p).maximized = true →
      (h.windows p).GetRect = (h.managers m).GetInnerRect)
    (hop : op.isWindowOp = true) :
    ∃ h1, op.apply h p = .ok h1 ∧ h1.managers = h.managers ∧
      (h1.windows p).manager = some m ∧
      ((h1.windows p).maximized = true →
        (h1.windows p).GetRect = (h.managers m).GetInnerRect) := by
  cases op with
  | Maximize =>
    refine ⟨_, Maximize_attached h p m hm, rfl, ?_, ?_⟩
    · simp [hm]
    · intro _
      simp [Window.GetRect, Box.GetRect, Box.SetRect, Manager.GetInnerRect]
  | Restore =>
    refine ⟨_, rfl, rfl, ?_, ?_⟩
    · simp [Restore, Window.SetRect, hm]
    · simp [Restore]
  | Center =>
    refine ⟨_, Center_attached h p m hm, rfl, ?_, ?_⟩
    · simp [Window.SetRect, hm]
    · intro hmax
      have hmax0 : (h.windows p).maximized = true := by
        simpa [Window.SetRect] using hmax
      have hr := hinv hmax0
      simp only [Window.GetRect, Box.GetRect, Manager.GetInnerRect, Prod.mk.injEq] at hr
      obtain ⟨hx, hy, hw, hh⟩ := hr
      simp [Window.GetRect, Window.SetRect, Box.GetRect, Box.SetRect, Manager.GetInnerRect,
        hw, hh, goSub_self, goAdd_zero]
  | AddButton b =>
    refine ⟨_, rfl, AddButton_managers h p b, ?_, ?_⟩
    · rw [AddButton_windows]; exact hm
    · rw [AddButton_windows]; exact hinv
  | SetBorder shown =>
    refine ⟨_, rfl, rfl, ?_, ?_⟩
    · simp [SetBorder, Window.SetBorder, hm]
    · simpa [SetBorder, Window.SetBorder, Window.GetRect, Box.GetRect, Box.SetBorder] using hinv
  | SetRoot root =>
    refine ⟨_, rfl, rfl, ?_, ?_⟩
    · simp [SetRoot, hm]
    · simpa [SetRoot, Window.GetRect] using hinv
  | SetRect x y width height => simp [Op.isWindowOp] at hop
  | SetManager m1 => simp [Op.isWindowOp] at hop

/-- A sequence of operations of the Window type runs to its end and keeps
"maximized implies rect = inner rect". -/
theorem run_keeps_maximized_rect (ops : List Op) :
    ∀ (h : Heap) (p m : Ptr), (h.windows p).manager = some m →
      ((h.windows p).maximized = true →
        (h.windows p).GetRect = (h.managers m).GetInnerRect) →
      (∀ op ∈ ops, op.isWindowOp = true) →
      ∃ h1, run h p ops = .ok h1 ∧ h1.managers = h.managers ∧
        (h1.windows p).manager = some m ∧
        ((h1.windows p).maximized = true →
          (h1.windows p).GetRect = (h.managers m).GetInnerRect) := by
  induction ops with
  | nil => intro h p m hm hinv _; exact ⟨h, rfl, rfl, hm, hinv⟩
  | cons op rest ih =>
    intro h p m hm hinv hops
    obtain ⟨h1, e1, hmgr1, hm1, hinv1⟩ :=
      apply_keeps_maximized_rect h p m op hm hinv (hops op (List.mem_cons_self _ _))
    obtain ⟨h2, e2, hmgr2, hm2, hinv2⟩ :=
      ih h1 p m hm1 (by rw [hmgr1]; exact hinv1)
        (fun o ho => hops o (List.mem_cons_of_mem _ ho))
    refine ⟨h2, ?_, hmgr2.trans hmgr1, hm2, ?_⟩
    · simp [run, e1, e2]
    · rw [hmgr1] at hinv2; exact hinv2

/-- C9: from an attached window that is not maximized (as a newly constructed
one is), every sequence of Maximize, Restore, Center, AddButton, SetBorder and
SetRoot runs to its end, leaves the managers (so the inner rect) as they were,
and ends in a state where IsMaximized() implies that the window's rect is the
manager's inner rect; there Maximize() ends with rect = inner rect and
maximized = true, and Restore() ends with maximized = false. -/
theorem maximized_rect_is_inner_rect (h : Heap) (p m : Ptr) (ops : List Op)
    (hm : (h.windows p).manager = some m)
    (hnew : (h.windows p).maximized = false)
    (hops : ∀ op ∈ ops, op.isWindowOp = true) :
    ∃ h1, run h p ops = .ok h1 ∧ h1.managers = h.managers ∧
      (IsMaximized (h1.windows p) = true →
        (h1.windows p).GetRect = (h.managers m).GetInnerRect) ∧
      (∃ h2, Maximize h1 p = .ok h2 ∧
        (h2.windows p).GetRect = (h.managers m).GetInnerRect ∧
        IsMaximized (h2.windows p) = true) ∧
      IsMaximized ((Restore h1 p).windows p) = false := by
  obtain ⟨h1, e1, hmgr1, hm1, hinv1⟩ :=
    run_keeps_maximized_rect ops h p m hm (by simp [hnew]) hops
  refine ⟨h1, e1, hmgr1, hinv1, ⟨_, Maximize_attached h1 p m hm1, ?_, ?_⟩, ?_⟩
  · simp [Window.GetRect, Box.GetRect, Box.SetRect, Manager.GetInnerRect, hmgr1]
  · simp [IsMaximized]
  · simp [Restore, IsMaximized]

/-- C9 at window 0 of the sample heap, for Maximize, AddButton, Center,
SetBorder. -/
theorem maximized_rect_is_inner_rect_witness :
    ∃ h1, run sampleHeap 0 [Op.Maximize, Op.AddButton 4, Op.Center, Op.SetBorder false]
        = .ok h1 ∧ h1.managers = sampleHeap.managers ∧
      (IsMaximized (h1.windows 0) = true →
        (h1.windows 0).GetRect = (sampleHeap.managers 0).GetInnerRect) ∧
      (∃ h2, Maximize h1 0 = .ok h2 ∧
        (h2.windows 0).GetRect = (sampleHeap.managers 0).GetInnerRect ∧
        IsMaximized (h2.windows 0) = true) ∧
      IsMaximized ((Restore h1 0).windows 0) = false :=
  maximized_rect_is_inner_rect sampleHeap 0 0
    [Op.Maximize, Op.AddButton 4, Op.Center, Op.SetBorder false] rfl rfl
    (by intro op hop; simp at hop; rcases hop with rfl | rfl | rfl | rfl <;> rfl)

/-! ## C10: a new window -/

/-- What Restore() puts back: the rect read from the restore fields the way
`Restore` passes them to `SetRect`. -/
theorem Restore_rect (h : Heap) (p : Ptr) :
    ((Restore h p).windows p).GetRect
      = ((h.windows p).restoreX, (h.windows p).restoreY, (h.windows p).restoreHeight,
          (h.windows p).restoreWidth) := by
  simp [Restore, Window.GetRect, Window.SetRect, Box.GetRect, Box.SetRect]

/-- An operation other than Maximize leaves the four restore fields alone,
also when it panics. -/
theorem apply_keeps_restore (h : Heap) (p : Ptr) (op : Op) (hop : op.isNotMaximize = true) :
    ((op.apply h p).heap.windows p).restoreX = (h.windows p).restoreX ∧
    ((op.apply h p).heap.windows p).restoreY = (h.windows p).restoreY ∧
    ((op.apply h p).heap.windows p).restoreHeight = (h.windows p).restoreHeight ∧
    ((op.apply h p).heap.windows p).restoreWidth = (h.windows p).restoreWidth := by
  cases op with
  | Maximize => simp [Op.isNotMaximize] at hop
  | Restore => simp [Op.apply, Outcome.heap, Restore, Window.SetRect]
  | Center =>
    cases hm : (h.windows p).manager with
    | none => simp [Op.apply, Center, checkManager_unattached _ hm, Outcome.heap]
    | some m => simp [Op.apply, Center_attached h p m hm, Outcome.heap, Window.SetRect]
  | AddButton b => simp [Op.apply, Outcome.heap, AddButton_windows]
  | SetBorder shown => simp [Op.apply, Outcome.heap, SetBorder, Window.SetBorder]
  | SetRoot root => simp [Op.apply, Outcome.heap, SetRoot]
  | SetRect x y width height => simp [Op.apply, Outcome.heap, Window.SetRect]
  | SetManager m1 => simp [Op.apply, Outcome.heap]

/-- A sequence of operations without Maximize leaves the four restore fields
alone, wherever it stops. -/
theorem run_keeps_restore (ops : List Op) :
    ∀ (h : Heap) (p : Ptr), (∀ op ∈ ops, op.isNotMaximize = true) →
      ((run h p ops).heap.windows p).restoreX = (h.windows p).restoreX ∧
      ((run h p ops).heap.windows p).restoreY = (h.windows p).restoreY ∧
      ((run h p ops).heap.windows p).restoreHeight = (h.windows p).restoreHeight ∧
      ((run h p ops).heap.windows p).restoreWidth = (h.windows p).restoreWidth := by
  induction ops with
  | nil => intro h p _; exact ⟨rfl, rfl, rfl, rfl⟩
  | cons op rest ih =>
    intro h p hops
    have h1 := apply_keeps_restore h p op (hops op (List.mem_cons_self _ _))
    cases e : op.apply h p with
    | ok h2 =>
      have h3 := ih h2 p (fun o ho => hops o (List.mem_cons_of_mem _ ho))
      simp only [e, Outcome.heap] at h1
      simp only [run, e]
      exact ⟨h3.1.trans h1.1, h3.2.1.trans h1.2.1, h3.2.2.1.trans h1.2.2.1,
        h3.2.2.2.trans h1.2.2.2⟩
    | panic msg h2 =>
      simp only [e, Outcome.heap] at h1
      simp only [run, e, Outcome.heap]
      exact h1

/-- C10: a newly constructed window is bordered, not maximized, has no root,
no manager and no buttons; and after any sequence of operations without
Maximize (SetRect, the wiring to a manager, Center, AddButton, SetBorder,
SetRoot, Restore), wherever the sequence stops, Restore() sets the rect to the
(x, y, width, height) the window had at construction. -/
theorem new_window_restores_start (h : Heap) (p : Ptr) (box : Box) (ops : List Op)
    (hnew : h.windows p = NewWindow box)
    (hops : ∀ op ∈ ops, op.isNotMaximize = true) :
    (h.windows p).border = true ∧ (h.windows p).Box.border = true ∧
    IsMaximized (h.windows p) = false ∧ GetRoot (h.windows p) = none ∧
    (h.windows p).manager = none ∧ (h.windows p).buttons = [] ∧
    ButtonCount (h.windows p) = 0 ∧
    (h.windows p).GetRect = box.GetRect ∧
    ((Restore (run h p ops).heap p).windows p).GetRect = box.GetRect := by
  have hr := run_keeps_restore ops h p hops
  obtain ⟨hx, hy, hh, hw⟩ := hr
  rw [Restore_rect, hx, hy, hh, hw, hnew]
  simp [NewWindow, Window.GetRect, Window.SetBorder, Box.SetBorder, Box.GetRect, IsMaximized,
    GetRoot, ButtonCount]

/-- C10 at window 1 of the sample heap, a new window on the box (0, 0, 15, 10):
moved, wired to manager 0, centered, then restored. -/
theorem new_window_restores_start_witness :
    ((Restore (run sampleHeap 1
        [Op.SetRect 7 8 20 6, Op.SetManager (some 0), Op.Center]).heap 1).windows 1).GetRect
      = (0, 0, 15, 10) :=
  (new_window_restores_start sampleHeap 1
    { x := 0, y := 0, width := 15, height := 10, hasFocus := false, border := false,
      title := "" }
    [Op.SetRect 7 8 20 6, Op.SetManager (some 0), Op.Center] rfl
    (by intro op hop; simp at hop; rcases hop with rfl | rfl | rfl <;> rfl)).2.2.2.2.2.2.2.2

/-! ## C6: GetButton and ButtonCount -/

/-- A sequence of AddButton calls appends its buttons, in order, to the
window's list and changes nothing else of the window. -/
theorem addButtons_windows (bs : List Ptr) :
    ∀ (h : Heap) (p : Ptr), (addButtons h p bs).windows p
      = { h.windows p with buttons := (h.windows p).buttons ++ bs } := by
  induction bs with
  | nil => intro h p; simp [addButtons]
  | cons b rest ih =>
    intro h p
    simp [addButtons, ih, AddButton_windows]

/-- GetButton inside the bounds returns the button at that index. -/
theorem GetButton_inside (w : Window) (k : Nat) (hk : k < w.buttons.length) :
    GetButton w (k : Int) = .ok w.buttons[k]? := by
  have h1 : ¬ ((k : Int) < 0 ∨ (k : Int) ≥ (w.buttons.length : Int)) := by omega
  have h2 : ¬ ((k : Int) < 0) := by omega
  simp only [GetButton, if_neg h1, index, if_neg h2, Int.toNat_ofNat]
  rw [List.getElem?_eq_getElem hk]

/-- C6: GetButton(i) returns nil exactly when i < 0 or i >= ButtonCount(); it
always returns (no runtime panic); inside the bounds it returns the button at
index i of the list. AddButton calls append to the list in order, so
ButtonCount() grows by the number of calls (from 0 on a window without
buttons), the k-th button added is at index (old count + k), and right after
AddButton(b), GetButton(ButtonCount() - 1) is b. -/
theorem GetButton_bounds_checked (h : Heap) (p : Ptr) (i : Int) (b : Ptr) (bs : List Ptr) :
    (GetButton (h.windows p) i = .ok none ↔ (i < 0 ∨ i ≥ ButtonCount (h.windows p))) ∧
    (∃ r, GetButton (h.windows p) i = .ok r) ∧
    (0 ≤ i → i < ButtonCount (h.windows p) →
      ∃ c, (h.windows p).buttons[i.toNat]? = some c ∧
        GetButton (h.windows p) i = .ok (some c)) ∧
    ButtonCount ((addButtons h p bs).windows p)
      = ButtonCount (h.windows p) + (bs.length : Int) ∧
    ((h.windows p).buttons = [] →
      ButtonCount ((addButtons h p bs).windows p) = (bs.length : Int)) ∧
    (∀ k, k < bs.length →
      ∃ c, bs[k]? = some c ∧
        GetButton ((addButtons h p bs).windows p) (ButtonCount (h.windows p) + (k : Int))
          = .ok (some c)) ∧
    GetButton ((AddButton h p b).windows p) (ButtonCount ((AddButton h p b).windows p) - 1)
      = .ok (some b) := by
  have inside : ∀ (w : Window) (j : Int), 0 ≤ j → j < ButtonCount w →
      ∃ c, w.buttons[j.toNat]? = some c ∧ GetButton w j = .ok (some c) := by
    intro w j h0 h1
    have hk : j.toNat < w.buttons.length := by
      simp only [ButtonCount] at h1; omega
    have hj : ((j.toNat : Nat) : Int) = j := Int.toNat_of_nonneg h0
    refine ⟨w.buttons[j.toNat], List.getElem?_eq_getElem hk, ?_⟩
    have := GetButton_inside w j.toNat hk
    rw [hj, List.getElem?_eq_getElem hk] at this
    exact this
  refine ⟨?_, ?_, inside _ i, ?_, ?_, ?_, ?_⟩
  · constructor
    · intro hnone
      by_contra hcon
      have h0 : 0 ≤ i := by omega
      have h1 : i < ButtonCount (h.windows p) := by omega
      obtain ⟨c, _, hc⟩ := inside _ i h0 h1
      rw [hc] at hnone
      simp at hnone
    · intro hout
      have : i < 0 ∨ i ≥ ((h.windows p).buttons.length : Int) := by
        simpa [ButtonCount] using hout
      simp [GetButton, this]
  · by_cases hout : i < 0 ∨ i ≥ ((h.windows p).buttons.length : Int)
    · exact ⟨none, by simp [GetButton, hout]⟩
    · have h0 : 0 ≤ i := by omega
      have h1 : i < ButtonCount (h.windows p) := by simp only [ButtonCount]; omega
      obtain ⟨c, _, hc⟩ := inside _ i h0 h1
      exact ⟨some c, hc⟩
  · simp [addButtons_windows, ButtonCount]
  · intro hnil
    simp [addButtons_windows, ButtonCount, hnil]
  · intro k hk
    have hlen : (h.windows p).buttons.length + k
        < ((addButtons h p bs).windows p).buttons.length := by
      simp [addButtons_windows]; omega
    have := GetButton_inside ((addButtons h p bs).windows p) _ hlen
    refine ⟨bs[k], List.getElem?_eq_getElem hk, ?_⟩
    rw [ButtonCount]
    have hcast : (((h.windows p).buttons.length + k : Nat) : Int)
        = ((h.windows p).buttons.length : Int) + (k : Int) := by push_cast; rfl
    rw [← hcast, this]
    simp [addButtons_windows, List.getElem?_append_right, List.getElem?_eq_getElem hk]
  · have hlen : (h.windows p).buttons.length
        < ((AddButton h p b).windows p).buttons.length := by
      simp [AddButton_windows]
    have := GetButton_inside ((AddButton h p b).windows p) _ hlen
    have hcast : ButtonCount ((AddButton h p b).windows p) - 1
        = (((h.windows p).buttons.length : Nat) : Int) := by
      simp [ButtonCount, AddButton_windows]
    rw [hcast, this]
    simp [AddButton_windows]

/-- C6 at window 0 of the sample heap after AddButton(4), AddButton(7):
index 1 is button 7, index 2 is out of range. -/
theorem GetButton_bounds_checked_witness :
    ButtonCount ((addButtons sampleHeap 0 [4, 7]).windows 0) = 2 ∧
    (∃ c, [4, 7][1]? = some c ∧
      GetButton ((addButtons sampleHeap 0 [4, 7]).windows 0)
        (ButtonCount (sampleHeap.windows 0) + ((1 : Nat) : Int)) = .ok (some c)) ∧
    (GetButton ((addButtons sampleHeap 0 [4, 7]).windows 0) 2 = .ok none ↔
      ((2 : Int) < 0 ∨ (2 : Int) ≥ ButtonCount ((addButtons sampleHeap 0 [4, 7]).windows 0))) :=
  ⟨(GetButton_bounds_checked sampleHeap 0 2 4 [4, 7]).2.2.2.2.1 rfl,
   (GetButton_bounds_checked sampleHeap 0 2 4 [4, 7]).2.2.2.2.2.1 1 (by decide),
   (GetButton_bounds_checked (addButtons sampleHeap 0 [4, 7]) 0 2 4 []).1⟩

/-! ## C2: the offsets AddButton assigns -/

theorem AddButton_loop_alignment (l : List Ptr) :
    ∀ (h : Heap) (a b : Int) (q : Ptr),
      ((AddButton.loop h l a b).buttons q).Alignment = (h.buttons q).Alignment := by
  induction l with
  | nil => intro h a b q; rfl
  | cons c rest ih =>
    intro h a b q
    unfold AddButton.loop
    dsimp only
    split <;> rw [ih] <;> simp only [setButton_buttons] <;> split <;> simp_all

theorem AddButton_loop_frame (l : List Ptr) :
    ∀ (h : Heap) (a b : Int) (q : Ptr), q ∉ l →
      (AddButton.loop h l a b).buttons q = h.buttons q := by
  induction l with
  | nil => intro h a b q _; rfl
  | cons c rest ih =>
    intro h a b q hq
    have hqc : q ≠ c := fun e => hq (e ▸ List.mem_cons_self _ _)
    have hqr : q ∉ rest := fun e => hq (List.mem_cons_of_mem _ e)
    unfold AddButton.loop
    dsimp only
    split <;> rw [ih _ _ _ _ hqr] <;> simp [hqc]

theorem isRight_setButton_offsetX (h : Heap) (c : Ptr) (v : Int) :
    isRight (h.setButton c { h.buttons c with offsetX := v }) = isRight h := by
  funext q
  simp only [isRight, setButton_buttons]
  split <;> simp_all

/-- The loop of AddButton over a list without repetition: the button at index
`i` ends with the start offset of its side moved by 3 for every earlier
button of the same side. -/
theorem AddButton_loop_offsets (l : List Ptr) :
    ∀ (h : Heap) (a b : Int), l.Nodup → ∀ (i : Nat) (hi : i < l.length),
      ((AddButton.loop h l a b).buttons (l.get ⟨i, hi⟩)).offsetX
        = if isRight h (l.get ⟨i, hi⟩) then b - 3 * (rightBefore h l i : Int)
          else a + 3 * (leftBefore h l i : Int) := by
  induction l with
  | nil => intro h a b _ i hi; simp at hi
  | cons c rest ih =>
    intro h a b hnd i hi
    obtain ⟨hc, hrest⟩ := List.nodup_cons.mp hnd
    by_cases hR : (h.buttons c).Alignment = ButtonAlignment.ButtonRight
    · have hRc : isRight h c = true := by simp [isRight, hR]
      unfold AddButton.loop
      dsimp only
      rw [if_pos hR]
      cases i with
      | zero =>
        simp [AddButton_loop_frame rest _ _ _ c hc, hRc, rightBefore]
      | succ j =>
        have hj : j < rest.length := by simpa using hi
        have := ih (h.setButton c { h.buttons c with offsetX := b }) a (b - 3) hrest j hj
        simp only [List.get_eq_getElem, List.getElem_cons_succ] at this ⊢
        rw [this]
        simp only [rightBefore, leftBefore, isRight_setButton_offsetX, List.take_succ_cons,
          List.countP_cons, hRc]
        split
        · simp
          ring
        · simp
    · have hRc : isRight h c = false := by simp [isRight, hR]
      unfold AddButton.loop
      dsimp only
      rw [if_neg hR]
      cases i with
      | zero =>
        simp [AddButton_loop_frame rest _ _ _ c hc, hRc, leftBefore]
      | succ j =>
        have hj : j < rest.length := by simpa using hi
        have := ih (h.setButton c { h.buttons c with offsetX := a }) (a + 3) b hrest j hj
        simp only [List.get_eq_getElem, List.getElem_cons_succ] at this ⊢
        rw [this]
        simp only [rightBefore, leftBefore, isRight_setButton_offsetX, List.take_succ_cons,
          List.countP_cons, hRc]
        split
        · simp
        · simp
          ring

theorem AddButton_buttons_alignment (h : Heap) (p b q : Ptr) :
    ((AddButton h p b).buttons q).Alignment = (h.buttons q).Alignment := by
  simp [AddButton, AddButton_loop_alignment]

theorem addButtons_alignment (bs : List Ptr) :
    ∀ (h : Heap) (p q : Ptr),
      ((addButtons h p bs).buttons q).Alignment = (h.buttons q).Alignment := by
  induction bs with
  | nil => intro h p q; rfl
  | cons b rest ih =>
    intro h p q
    simp [addButtons, ih, AddButton_buttons_alignment]

theorem addButtons_snoc (bs : List Ptr) :
    ∀ (h : Heap) (p b : Ptr),
      addButtons h p (bs ++ [b]) = AddButton (addButtons h p bs) p b := by
  induction bs with
  | nil => intro h p b; rfl
  | cons c rest ih =>
    intro h p b
    simp [addButtons, ih]

theorem isRight_congr (h1 h2 : Heap)
    (hal : ∀ q, (h1.buttons q).Alignment = (h2.buttons q).Alignment) :
    isRight h1 = isRight h2 := by
  funext q
  simp [isRight, hal q]

/-- After a non-empty sequence of AddButton calls on a window without
buttons, the button heap is the one the loop of the last call leaves. -/
theorem addButtons_offsets (h : Heap) (p : Ptr) (bs : List Ptr)
    (hempty : (h.windows p).buttons = []) (hd : bs.Nodup) (i : Nat) (hi : i < bs.length) :
    ((addButtons h p bs).buttons (bs.get ⟨i, hi⟩)).offsetX
      = if isRight h (bs.get ⟨i, hi⟩) then -3 - 3 * (rightBefore h bs i : Int)
        else 2 + 3 * (leftBefore h bs i : Int) := by
  rcases List.eq_nil_or_concat bs with hnil | ⟨init, last, hcat⟩
  · subst hnil; simp at hi
  · rw [List.concat_eq_append] at hcat
    subst hcat
    have hw : ((addButtons h p init).windows p).buttons = init := by
      simp [addButtons_windows, hempty]
    have hloop : (addButtons h p (init ++ [last])).buttons
        = (AddButton.loop ((addButtons h p init).setWindow p
            { (addButtons h p init).windows p with buttons := init ++ [last] })
            (init ++ [last]) 2 (-3)).buttons := by
      rw [addButtons_snoc]
      simp [AddButton, hw]
    rw [hloop, AddButton_loop_offsets _ _ _ _ hd i hi]
    have hal : isRight ((addButtons h p init).setWindow p
        { (addButtons h p init).windows p with buttons := init ++ [last] }) = isRight h :=
      isRight_congr _ _ (fun q => by simp [addButtons_alignment])
    simp only [rightBefore, leftBefore, hal]

/-- C2: after any sequence of AddButton calls with distinct buttons on a
window that had none, the button added at position i, when left-aligned, has
offset 2 + 3k where k counts the left-aligned buttons added before it, and,
when right-aligned, has offset -3 - 3k where k counts the right-aligned
buttons added before it: the two sides do not disturb each other. -/
theorem AddButton_offsets_by_side (h : Heap) (p : Ptr) (bs : List Ptr) (i : Nat)
    (hempty : (h.windows p).buttons = []) (hd : bs.Nodup) (hi : i < bs.length) :
    ((addButtons h p bs).windows p).buttons = bs ∧
    ((addButtons h p bs).buttons (bs.get ⟨i, hi⟩)).Alignment
      = (h.buttons (bs.get ⟨i, hi⟩)).Alignment ∧
    ((h.buttons (bs.get ⟨i, hi⟩)).Alignment = ButtonAlignment.ButtonLeft →
      ((addButtons h p bs).buttons (bs.get ⟨i, hi⟩)).offsetX
        = 2 + 3 * (leftBefore h bs i : Int)) ∧
    ((h.buttons (bs.get ⟨i, hi⟩)).Alignment = ButtonAlignment.ButtonRight →
      ((addButtons h p bs).buttons (bs.get ⟨i, hi⟩)).offsetX
        = -3 - 3 * (rightBefore h bs i : Int)) := by
  refine ⟨by simp [addButtons_windows, hempty], addButtons_alignment bs h p _, ?_, ?_⟩
  · intro hl
    have hside : isRight h (bs.get ⟨i, hi⟩) = false := by
      simp only [isRight, hl]; decide
    rw [addButtons_offsets h p bs hempty hd i hi, hside]
    simp
  · intro hr
    have hside : isRight h (bs.get ⟨i, hi⟩) = true := by
      simp only [isRight, hr]; decide
    rw [addButtons_offsets h p bs hempty hd i hi, hside]
    simp

/-- C2 at window 0 of the sample heap for the buttons 2, 1, 4, 3, 6 (left,
right, left, right, left): button 6 is the third left-aligned one and gets
offset 8; button 3 is the second right-aligned one and gets offset -6. -/
theorem AddButton_offsets_by_side_witness :
    ((addButtons sampleHeap 0 [2, 1, 4, 3, 6]).buttons 6).offsetX = 8 ∧
    ((addButtons sampleHeap 0 [2, 1, 4, 3, 6]).buttons 3).offsetX = -6 :=
  ⟨(AddButton_offsets_by_side sampleHeap 0 [2, 1, 4, 3, 6] 4 rfl (by decide) (by decide)).2.2.1
      (by decide),
   (AddButton_offsets_by_side sampleHeap 0 [2, 1, 4, 3, 6] 3 rfl (by decide) (by decide)).2.2.2
      (by decide)⟩

/-! ## C4, C5: the mouse handler -/

/-- The test of the handler is "the event column is the button's column". -/
theorem hits_iff_column (button : Button) (x wx width : Int) :
    hits button x wx width = true ↔ x = button.column wx width := by
  unfold hits Button.column
  by_cases h0 : button.offsetX < 0
  · have h1 : ¬ button.offsetX ≥ 0 := by omega
    simp only [h0, h1, decide_True, decide_False, Bool.false_and, Bool.true_and, Bool.false_or,
      decide_eq_true_eq, if_true]
    constructor <;> intro e <;> omega
  · have h1 : button.offsetX ≥ 0 := by omega
    simp only [h0, h1, decide_True, decide_False, Bool.false_and, Bool.true_and, Bool.or_false,
      decide_eq_true_eq, if_false]
    constructor <;> intro e <;> omega

/-- The loop of the handler returns at the first button, in list order, whose
column is the event column, and falls through when there is none. -/
theorem MouseHandler_loop_find (h : Heap) (x wx width : Int) (l : List Ptr) :
    MouseHandler.loop h x wx width l
      = match l.find? (fun b => decide (x = (h.buttons b).column wx width)) with
        | some b =>
          some { consumed := true, capture := none,
                 calls := match (h.buttons b).ClickHandler with
                   | some f => [Call.click b f]
                   | none => [] }
        | none => none := by
  induction l with
  | nil => rfl
  | cons c rest ih =>
    unfold MouseHandler.loop
    dsimp only
    by_cases hc : hits (h.buttons c) x wx width = true
    · have hcol := (hits_iff_column _ _ _ _).mp hc
      rw [if_pos hc, List.find?_cons_of_pos _ (by simpa using hcol)]
      cases hch : (h.buttons c).ClickHandler <;> simp [hch]
    · have hcol : ¬ x = (h.buttons c).column wx width :=
        fun e => hc ((hits_iff_column _ _ _ _).mpr e)
      rw [if_neg hc, List.find?_cons_of_neg _ (by simpa using hcol), ih]

/-- C4: for every window and every primary-click event on the window's top row
whose column is the column of at least one button, the handler returns
consumed = true and no capture; the only callback it invokes is the click
action of the first such button in list order, when that button has one; it
invokes no other button's action and not the root's mouse handler. -/
theorem click_on_button_consumed (h : Heap) (p : Ptr) (event : EventMouse)
    (setFocus : SetFocus)
    (hrow : event.y = (h.windows p).Box.y)
    (hcol : ∃ b ∈ (h.windows p).buttons,
      event.x = (h.buttons b).column (h.windows p).Box.x (h.windows p).Box.width) :
    ∃ b, (h.windows p).buttons.find? (fun b => decide
          (event.x = (h.buttons b).column (h.windows p).Box.x (h.windows p).Box.width))
        = some b ∧
      (MouseHandler h p MouseAction.MouseLeftClick event setFocus).consumed = true ∧
      (MouseHandler h p MouseAction.MouseLeftClick event setFocus).capture = none ∧
      (MouseHandler h p MouseAction.MouseLeftClick event setFocus).calls
        = (match (h.buttons b).ClickHandler with
           | some f => [Call.click b f]
           | none => []) ∧
      (∀ c f, Call.click c f ∈
          (MouseHandler h p MouseAction.MouseLeftClick event setFocus).calls →
        c = b ∧ (h.buttons b).ClickHandler = some f) ∧
      (∀ a e s, Call.rootMouse a e s ∉
          (MouseHandler h p MouseAction.MouseLeftClick event setFocus).calls) := by
  obtain ⟨b0, hb0, hx0⟩ := hcol
  have hsome : ((h.windows p).buttons.find? (fun b => decide
      (event.x = (h.buttons b).column (h.windows p).Box.x (h.windows p).Box.width))).isSome := by
    rw [List.find?_isSome]
    exact ⟨b0, hb0, by simpa using hx0⟩
  obtain ⟨b, hb⟩ := Option.isSome_iff_exists.mp hsome
  have hres : MouseHandler h p MouseAction.MouseLeftClick event setFocus
      = { consumed := true, capture := none,
          calls := match (h.buttons b).ClickHandler with
            | some f => [Call.click b f]
            | none => [] } := by
    simp only [MouseHandler, WrapMouseHandler, EventMouse.Position, Window.GetRect, Box.GetRect,
      if_true, hrow, MouseHandler_loop_find, hb]
  refine ⟨b, hb, ?_, ?_, ?_, ?_, ?_⟩
  · rw [hres]
  · rw [hres]
  · rw [hres]
  · intro c f hmem
    rw [hres] at hmem
    cases hch : (h.buttons b).ClickHandler with
    | none => simp [hch] at hmem
    | some g =>
      simp only [hch, List.mem_singleton, Call.click.injEq] at hmem
      exact ⟨hmem.1, by rw [hmem.2]⟩
  · intro a e s hmem
    rw [hres] at hmem
    cases hch : (h.buttons b).ClickHandler with
    | none => simp [hch] at hmem
    | some g => simp [hch] at hmem

/-- C4 on the sample window with buttons: a primary click at (9, 3), the
column of the right-aligned button 1. -/
theorem click_on_button_consumed_witness :
    ∃ b, (sampleButtonsHeap.windows 0).buttons.find? (fun b => decide
          (({ x := 9, y := 3 } : EventMouse).x = (sampleButtonsHeap.buttons b).column
            (sampleButtonsHeap.windows 0).Box.x (sampleButtonsHeap.windows 0).Box.width))
        = some b ∧
      (MouseHandler sampleButtonsHeap 0 MouseAction.MouseLeftClick { x := 9, y := 3 } 0).consumed
        = true ∧
      (MouseHandler sampleButtonsHeap 0 MouseAction.MouseLeftClick { x := 9, y := 3 } 0).capture
        = none ∧
      (MouseHandler sampleButtonsHeap 0 MouseAction.MouseLeftClick { x := 9, y := 3 } 0).calls
        = (match (sampleButtonsHeap.buttons b).ClickHandler with
           | some f => [Call.click b f]
           | none => []) ∧
      (∀ c f, Call.click c f ∈
          (MouseHandler sampleButtonsHeap 0 MouseAction.MouseLeftClick
            { x := 9, y := 3 } 0).calls →
        c = b ∧ (sampleButtonsHeap.buttons b).ClickHandler = some f) ∧
      (∀ a e s, Call.rootMouse a e s ∉
          (MouseHandler sampleButtonsHeap 0 MouseAction.MouseLeftClick
            { x := 9, y := 3 } 0).calls) :=
  click_on_button_consumed sampleButtonsHeap 0 { x := 9, y := 3 } 0 (by decide)
    ⟨1, by decide, by decide⟩

/-- C5: for every window and every mouse event that is not a button hit (not a
primary click, or not on the window's top row, or in no button's column), no
button action is invoked; with a root the handler returns what the root's own
handler returns on the same (action, event, setFocus), and invokes it once;
without a root it returns consumed = false, no capture, and invokes
nothing. -/
theorem miss_goes_to_root (h : Heap) (p : Ptr) (action : MouseAction) (event : EventMouse)
    (setFocus : SetFocus)
    (hmiss : action ≠ MouseAction.MouseLeftClick ∨ event.y ≠ (h.windows p).Box.y ∨
      ∀ b ∈ (h.windows p).buttons,
        event.x ≠ (h.buttons b).column (h.windows p).Box.x (h.windows p).Box.width) :
    (∀ b f, Call.click b f ∉ (MouseHandler h p action event setFocus).calls) ∧
    (∀ root, (h.windows p).root = some root →
      (MouseHandler h p action event setFocus).consumed
        = (root.mouseHandler action event setFocus).1 ∧
      (MouseHandler h p action event setFocus).capture
        = (root.mouseHandler action event setFocus).2 ∧
      (MouseHandler h p action event setFocus).calls
        = [Call.rootMouse action event setFocus]) ∧
    ((h.windows p).root = none →
      MouseHandler h p action event setFocus
        = { consumed := false, capture := none, calls := [] }) := by
  have hret : (if action = MouseAction.MouseLeftClick then
        (match event.Position, (h.windows p).GetRect with
          | (x, y), (wx, wy, width, _) =>
            if y = wy then MouseHandler.loop h x wx width (h.windows p).buttons else none)
      else none) = none := by
    by_cases ha : action = MouseAction.MouseLeftClick
    · simp only [if_pos ha, EventMouse.Position, Window.GetRect, Box.GetRect]
      by_cases hy : event.y = (h.windows p).Box.y
      · have hall : ∀ b ∈ (h.windows p).buttons,
            event.x ≠ (h.buttons b).column (h.windows p).Box.x (h.windows p).Box.width := by
          rcases hmiss with h1 | h1 | h1
          · exact absurd ha h1
          · exact absurd hy h1
          · exact h1
        have hnone : (h.windows p).buttons.find? (fun b => decide
            (event.x = (h.buttons b).column (h.windows p).Box.x (h.windows p).Box.width))
            = none := by
          rw [List.find?_eq_none]
          intro b hb
          simpa using hall b hb
        simp only [if_pos hy, MouseHandler_loop_find, hnone]
      · simp only [if_neg hy]
    · simp only [if_neg ha]
  have hres : MouseHandler h p action event setFocus
      = match (h.windows p).root with
        | some root =>
          { consumed := (root.mouseHandler action event setFocus).1,
            capture := (root.mouseHandler action event setFocus).2,
            calls := [Call.rootMouse action event setFocus] }
        | none => { consumed := false, capture := none, calls := [] } := by
    simp only [MouseHandler, WrapMouseHandler, hret]
  refine ⟨?_, ?_, ?_⟩
  · intro b f hmem
    rw [hres] at hmem
    cases hroot : (h.windows p).root <;> simp [hroot] at hmem
  · intro root hroot
    rw [hres, hroot]
    exact ⟨rfl, rfl, rfl⟩
  · intro hroot
    rw [hres, hroot]

/-- C5 on the sample window with buttons, which has no root: a primary click
at (5, 3), on the top row but in no button's column. -/
theorem miss_goes_to_root_witness :
    MouseHandler sampleButtonsHeap 0 MouseAction.MouseLeftClick { x := 5, y := 3 } 0
      = { consumed := false, capture := none, calls := [] } :=
  (miss_goes_to_root sampleButtonsHeap 0 MouseAction.MouseLeftClick { x := 5, y := 3 } 0
    (Or.inr (Or.inr (by decide)))).2.2 rfl

/-! ## C11: HasFocus -/

/-- C11: for every window, HasFocus() is the root's focus state when a root
exists, whatever the window's own box focus flag is, and the window's own
box focus flag when there is no root. -/
theorem HasFocus_delegates (w : Window) (flag : Bool) :
    (∀ root, w.root = some root →
      HasFocus w = root.hasFocus ∧
      HasFocus { w with Box := { w.Box with hasFocus := flag } } = root.hasFocus) ∧
    (w.root = none →
      HasFocus w = w.Box.HasFocus ∧
      HasFocus { w with Box := { w.Box with hasFocus := flag } } = flag) := by
  constructor
  · intro root hroot
    simp [HasFocus, hroot]
  · intro hroot
    simp [HasFocus, hroot, Box.HasFocus]

/-- C11 at window 0 of the sample heap, which has no root and no focus, and at
the same window with a focused root and the own flag cleared. -/
theorem HasFocus_delegates_witness :
    HasFocus (sampleHeap.windows 0) = false ∧
    HasFocus { sampleHeap.windows 0 with
      root := some { x := 0, y := 0, width := 1, height := 1, hasFocus := true,
                     mouseHandler := fun _ _ _ => (false, none) } } = true :=
  ⟨((HasFocus_delegates (sampleHeap.windows 0) false).2 rfl).1,
   ((HasFocus_delegates
      { sampleHeap.windows 0 with
        root := some { x := 0, y := 0, width := 1, height := 1, hasFocus := true,
                       mouseHandler := fun _ _ _ => (false, none) } } false).1 _ rfl).1⟩

/-! ## C16: Draw reconciles the focus flag -/

/-- The window that Draw leaves: the own focus flag is kept only when
HasFocus() holds, the root gets the inner rect, the rest is as it was. -/
theorem Draw_window (h : Heap) (p : Ptr) :
    ((Draw h p).1.windows p).Box
        = { (h.windows p).Box with
            hasFocus := (h.windows p).Box.hasFocus && HasFocus (h.windows p) } ∧
    HasFocus ((Draw h p).1.windows p) = HasFocus (h.windows p) := by
  rcases hB : (h.windows p).Box with ⟨x, y, width, height, flag, border, title⟩
  cases hroot : (h.windows p).root with
  | none =>
    cases flag <;> simp [Draw, HasFocus, hroot, Box.HasFocus, Box.Blur, hB]
  | some root =>
    cases flag <;> cases hr : root.hasFocus <;>
      simp [Draw, HasFocus, hroot, Box.HasFocus, Box.Blur, hB, hr, Primitive.SetRect]

/-- C16: after Draw the window's own box focus flag is set only if HasFocus()
is true. When the own flag is set and the root reports not focused, Draw
clears the own flag; when the window has no root, or the root is focused, Draw
leaves the own flag as it was. -/
theorem Draw_reconciles_focus (h : Heap) (p : Ptr) :
    (((Draw h p).1.windows p).Box.HasFocus = true →
      HasFocus ((Draw h p).1.windows p) = true) ∧
    (∀ root, (h.windows p).root = some root → (h.windows p).Box.HasFocus = true →
      root.hasFocus = false → ((Draw h p).1.windows p).Box.HasFocus = false) ∧
    ((h.windows p).root = none →
      ((Draw h p).1.windows p).Box.HasFocus = (h.windows p).Box.HasFocus) ∧
    (∀ root, (h.windows p).root = some root → root.hasFocus = true →
      ((Draw h p).1.windows p).Box.HasFocus = (h.windows p).Box.HasFocus) := by
  obtain ⟨hbox, hfocus⟩ := Draw_window h p
  refine ⟨?_, ?_, ?_, ?_⟩
  · intro hset
    rw [hfocus]
    simp only [Box.HasFocus, hbox, Bool.and_eq_true] at hset
    exact hset.2
  · intro root hroot hown hr
    simp [Box.HasFocus, hbox, HasFocus, hroot, hr]
  · intro hroot
    simp [Box.HasFocus, hbox, HasFocus, hroot]
  · intro root hroot hr
    simp [Box.HasFocus, hbox, HasFocus, hroot, hr]

/-- C16 at window 0 of the sample heap with the own flag set and a root that
is not focused: Draw clears the own flag. -/
theorem Draw_reconciles_focus_witness :
    (((Draw (sampleHeap.setWindow 0
        { sampleHeap.windows 0 with
          Box := (sampleHeap.windows 0).Box.Focus
          root := some { x := 0, y := 0, width := 1, height := 1, hasFocus := false,
                         mouseHandler := fun _ _ _ => (false, none) } }) 0).1.windows 0).Box.HasFocus
      = false) :=
  (Draw_reconciles_focus (sampleHeap.setWindow 0
        { sampleHeap.windows 0 with
          Box := (sampleHeap.windows 0).Box.Focus
          root := some { x := 0, y := 0, width := 1, height := 1, hasFocus := false,
                         mouseHandler := fun _ _ _ => (false, none) } }) 0).2.1 _ rfl rfl rfl

/-! ## C20: Maximize twice -/

/-- C20: for every attached window, Maximize() twice in a row and then
Restore() leaves the rect equal to the manager's inner rect: the second
Maximize() saved the already maximized geometry; so the rect the window had
before the first Maximize() comes back only if it was the inner rect. -/
theorem maximize_twice_restores_inner_rect (h : Heap) (p m : Ptr)
    (hm : (h.windows p).manager = some m) :
    ∃ h1 h2, Maximize h p = .ok h1 ∧ Maximize h1 p = .ok h2 ∧
      ((Restore h2 p).windows p).GetRect = (h.managers m).GetInnerRect ∧
      ((h.windows p).GetRect ≠ (h.managers m).GetInnerRect →
        ((Restore h2 p).windows p).GetRect ≠ (h.windows p).GetRect) := by
  obtain ⟨h1, e1, hm1, hmgr1, hr1⟩ : ∃ h1, Maximize h p = .ok h1 ∧
      (h1.windows p).manager = some m ∧ h1.managers = h.managers ∧
      (h1.windows p).GetRect = (h.managers m).GetInnerRect :=
    ⟨_, Maximize_attached h p m hm, by simp [hm], rfl,
      by simp [Window.GetRect, Box.GetRect, Box.SetRect, Manager.GetInnerRect]⟩
  have hrect : ((Restore (h1.setWindow p
      { h1.windows p with
        Box := (h1.windows p).Box.SetRect (h1.managers m).innerX (h1.managers m).innerY
          (h1.managers m).innerWidth (h1.managers m).innerHeight
        restoreX := (h1.windows p).Box.x
        restoreY := (h1.windows p).Box.y
        restoreHeight := (h1.windows p).Box.width
        restoreWidth := (h1.windows p).Box.height
        maximized := true }) p).windows p).GetRect = (h.managers m).GetInnerRect := by
    rw [Restore_rect, ← hr1]
    simp [Window.GetRect, Box.GetRect]
  refine ⟨h1, _, e1, Maximize_attached h1 p m hm1, hrect, ?_⟩
  intro hne heq
  exact hne (heq.symm.trans hrect)

/-- C20 at window 0 of the sample heap: from the rect (2, 3, 10, 5), two
Maximize() and one Restore() end at the inner rect (0, 0, 100, 40). -/
theorem maximize_twice_restores_inner_rect_witness :
    ∃ h1 h2, Maximize sampleHeap 0 = .ok h1 ∧ Maximize h1 0 = .ok h2 ∧
      ((Restore h2 0).windows 0).GetRect = (0, 0, 100, 40) ∧
      ((Restore h2 0).windows 0).GetRect ≠ (2, 3, 10, 5) :=
  match maximize_twice_restores_inner_rect sampleHeap 0 0 rfl with
  | ⟨h1, h2, e1, e2, hr, hne⟩ => ⟨h1, h2, e1, e2, hr, hne (by decide)⟩

/-! ## C19: Center keeps a fitting window inside, centered up to rounding -/

/-- The rect Center leaves on an attached window. -/
theorem Center_rect_attached (h : Heap) (p m : Ptr) (hm : (h.windows p).manager = some m) :
    ∃ h1, Center h p = .ok h1 ∧ (h1.windows p).manager = some m ∧
      h1.managers = h.managers ∧
      (h1.windows p).GetRect
        = (goAdd (h.managers m).innerX
             ((goSub (h.managers m).innerWidth (h.windows p).Box.width).tdiv 2),
           goAdd (h.managers m).innerY
             ((goSub (h.managers m).innerHeight (h.windows p).Box.height).tdiv 2),
           (h.windows p).Box.width, (h.windows p).Box.height) :=
  ⟨_, Center_attached h p m hm, by simp [Window.SetRect, hm], rfl,
    by simp [Window.GetRect, Window.SetRect, Box.GetRect, Box.SetRect]⟩

/-- One axis of Center: a size between 0 and the inner size, in an inner
range that fits Go's int, is placed inside it with the leading margin at most
the trailing one and at most 1 less. -/
theorem center_axis (mx mw width : Int) (h1 : inRange mx = true) (h2 : inRange mw = true)
    (h3 : inRange (mx + mw) = true) (h4 : 0 ≤ width) (h5 : width ≤ mw) :
    mx ≤ goAdd mx ((goSub mw width).tdiv 2) ∧
    goAdd mx ((goSub mw width).tdiv 2) + width ≤ mx + mw ∧
    goAdd mx ((goSub mw width).tdiv 2) - mx
      ≤ mx + mw - goAdd mx ((goSub mw width).tdiv 2) - width ∧
    (mx + mw - goAdd mx ((goSub mw width).tdiv 2) - width)
      - (goAdd mx ((goSub mw width).tdiv 2) - mx) ≤ 1 := by
  rw [inRange_iff] at h1 h2 h3
  have hd : (mw - width).tdiv 2 = (mw - width) / 2 :=
    Int.tdiv_eq_ediv (by omega) (by decide)
  have hs : goSub mw width = mw - width :=
    goSub_of_inRange _ _ (by rw [inRange_iff]; omega)
  have ha : goAdd mx ((mw - width).tdiv 2) = mx + (mw - width).tdiv 2 :=
    goAdd_of_inRange _ _ (by rw [inRange_iff, hd]; omega)
  rw [hs, ha, hd]
  omega

/-- C19, as the code has it: for every attached window, Center() leaves a rect
(x1, y1, width, height) and a second Center() leaves the same rect; and when
the window fits (0 <= width <= mw, 0 <= height <= mh) in an inner rect
(mx, my, mw, mh) whose origin, size and far edge mx + mw (my + mh) are values
of Go's int, the rect lies inside the inner rect with the left margin x1 - mx
at most the right margin mx + mw - x1 - width and at most 1 apart from it,
likewise for top and bottom. -/
theorem center_fits_and_is_idempotent (h : Heap) (p m : Ptr)
    (x y width height mx my mw mh : Int)
    (hm : (h.windows p).manager = some m)
    (hr : (h.windows p).GetRect = (x, y, width, height))
    (hi : (h.managers m).GetInnerRect = (mx, my, mw, mh)) :
    ∃ h1 x1 y1, Center h p = .ok h1 ∧ (h1.windows p).GetRect = (x1, y1, width, height) ∧
      (∃ h2, Center h1 p = .ok h2 ∧ (h2.windows p).GetRect = (h1.windows p).GetRect) ∧
      (inRange mx = true → inRange mw = true → inRange (mx + mw) = true →
        0 ≤ width → width ≤ mw →
        mx ≤ x1 ∧ x1 + width ≤ mx + mw ∧
        x1 - mx ≤ mx + mw - x1 - width ∧ (mx + mw - x1 - width) - (x1 - mx) ≤ 1) ∧
      (inRange my = true → inRange mh = true → inRange (my + mh) = true →
        0 ≤ height → height ≤ mh →
        my ≤ y1 ∧ y1 + height ≤ my + mh ∧
        y1 - my ≤ my + mh - y1 - height ∧ (my + mh - y1 - height) - (y1 - my) ≤ 1) := by
  simp only [Window.GetRect, Box.GetRect, Manager.GetInnerRect, Prod.mk.injEq] at hr hi
  obtain ⟨hx, hy, hwd, hht⟩ := hr
  obtain ⟨h1x, h1y, h1w, h1h⟩ := hi
  obtain ⟨h1, e1, hm1, hmgr1, hr1⟩ := Center_rect_attached h p m hm
  obtain ⟨h2, e2, _, _, hr2⟩ := Center_rect_attached h1 p m hm1
  rw [hwd, hht, h1x, h1y, h1w, h1h] at hr1
  refine ⟨h1, goAdd mx ((goSub mw width).tdiv 2), goAdd my ((goSub mh height).tdiv 2), e1,
    hr1, ⟨h2, e2, ?_⟩, ?_, ?_⟩
  · have hsize : (h1.windows p).Box.width = width ∧ (h1.windows p).Box.height = height := by
      simp only [Window.GetRect, Box.GetRect, Prod.mk.injEq] at hr1
      exact ⟨hr1.2.2.1, hr1.2.2.2⟩
    rw [hr2, hr1, hmgr1, hsize.1, hsize.2, h1x, h1y, h1w, h1h]
  · intro r1 r2 r3 r4 r5
    exact center_axis mx mw width r1 r2 r3 r4 r5
  · intro r1 r2 r3 r4 r5
    exact center_axis my mh height r1 r2 r3 r4 r5

/-- C19 at window 0 of the sample heap: the 10x5 window in (0, 0, 100, 40)
ends at (45, 17), with margins 45 and 45, 17 and 18. -/
theorem center_fits_and_is_idempotent_witness :
    ∃ h1 x1 y1, Center sampleHeap 0 = .ok h1 ∧ (h1.windows 0).GetRect = (x1, y1, 10, 5) ∧
      (∃ h2, Center h1 0 = .ok h2 ∧ (h2.windows 0).GetRect = (h1.windows 0).GetRect) ∧
      ((0 : Int) ≤ x1 ∧ x1 + 10 ≤ 0 + 100 ∧
        x1 - 0 ≤ 0 + 100 - x1 - 10 ∧ (0 + 100 - x1 - 10) - (x1 - 0) ≤ 1) ∧
      ((0 : Int) ≤ y1 ∧ y1 + 5 ≤ 0 + 40 ∧
        y1 - 0 ≤ 0 + 40 - y1 - 5 ∧ (0 + 40 - y1 - 5) - (y1 - 0) ≤ 1) :=
  match center_fits_and_is_idempotent sampleHeap 0 0 2 3 10 5 0 0 100 40 rfl rfl rfl with
  | ⟨h1, x1, y1, e1, hr1, hidem, hx, hy⟩ =>
    ⟨h1, x1, y1, e1, hr1, hidem,
      hx (by decide) (by decide) (by decide) (by decide) (by decide),
      hy (by decide) (by decide) (by decide) (by decide) (by decide)⟩

/-- C19 as stated fails where the inner rect reaches past the int range: the
10x5 window of the far sample heap fits the inner rect
(9223372036854775807, 0, 100, 40), and Center() wraps its left edge to
-9223372036854775764, left of the inner rect. -/
theorem center_wraps_outside_inner_rect :
    (sampleFarHeap.windows 0).manager = some 0 ∧
    (sampleFarHeap.windows 0).GetRect = (2, 3, 10, 5) ∧
    (sampleFarHeap.managers 0).GetInnerRect = (9223372036854775807, 0, 100, 40) ∧
    ((0 : Int) ≤ 10 ∧ (10 : Int) ≤ 100 ∧ (0 : Int) ≤ 5 ∧ (5 : Int) ≤ 40) ∧
    ∃ h1, Center sampleFarHeap 0 = .ok h1 ∧
      (h1.windows 0).GetRect = (-9223372036854775764, 17, 10, 5) ∧
      ¬ ((sampleFarHeap.managers 0).innerX ≤ (h1.windows 0).Box.x) :=
  ⟨rfl, rfl, rfl, by decide, _, Center_attached sampleFarHeap 0 0 rfl, by decide, by decide⟩

/-! ## C17: the recomputation agrees with running counters -/

theorem isRight_addButtons (h : Heap) (p : Ptr) (bs : List Ptr) :
    isRight (addButtons h p bs) = isRight h :=
  isRight_congr _ _ (fun q => addButtons_alignment bs h p q)

/-- The offset of the button at index `i` after the calls for `bs ++ [b]` is
computed from the first `i` buttons of `bs` alone. -/
theorem addButtons_snoc_offset (h : Heap) (p : Ptr) (bs : List Ptr) (b : Ptr)
    (hempty : (h.windows p).buttons = []) (hd : (bs ++ [b]).Nodup)
    (i : Nat) (hi : i < bs.length) :
    ((addButtons h p (bs ++ [b])).buttons (bs.get ⟨i, hi⟩)).offsetX
      = ((addButtons h p bs).buttons (bs.get ⟨i, hi⟩)).offsetX := by
  have hi2 : i < (bs ++ [b]).length := by simp; omega
  have hget : (bs ++ [b]).get ⟨i, hi2⟩ = bs.get ⟨i, hi⟩ := by
    simp [List.getElem_append_left hi]
  have hd1 : bs.Nodup := (List.nodup_append.mp hd).1
  have htake : (bs ++ [b]).take i = bs.take i :=
    List.take_append_of_le_length (Nat.le_of_lt hi)
  have h1 := addButtons_offsets h p (bs ++ [b]) hempty hd i hi2
  have h2 := addButtons_offsets h p bs hempty hd1 i hi
  rw [hget] at h1
  rw [h1, h2]
  simp only [rightBefore, leftBefore, htake]

/-- The offset of the last button added counts all the buttons before it. -/
theorem addButtons_snoc_last (h : Heap) (p : Ptr) (bs : List Ptr) (b : Ptr)
    (hempty : (h.windows p).buttons = []) (hd : (bs ++ [b]).Nodup) :
    ((addButtons h p (bs ++ [b])).buttons b).offsetX
      = if isRight h b then -3 - 3 * (bs.countP (fun q => isRight h q) : Int)
        else 2 + 3 * (bs.countP (fun q => !isRight h q) : Int) := by
  have hi2 : bs.length < (bs ++ [b]).length := by simp
  have hget : (bs ++ [b]).get ⟨bs.length, hi2⟩ = b := by simp
  have htake : (bs ++ [b]).take bs.length = bs := by simp
  have h1 := addButtons_offsets h p (bs ++ [b]) hempty hd bs.length hi2
  rw [hget] at h1
  rw [h1]
  simp only [rightBefore, leftBefore, htake]

/-- The loop over `l1 ++ l2` is the loop over `l1` followed by the loop over
`l2` with the counters where the first loop left them. -/
theorem AddButton_loop_append (l1 l2 : List Ptr) :
    ∀ (h : Heap) (a c : Int),
      AddButton.loop h (l1 ++ l2) a c
        = AddButton.loop (AddButton.loop h l1 a c) l2
            (a + 3 * (l1.countP (fun q => !isRight h q) : Int))
            (c - 3 * (l1.countP (fun q => isRight h q) : Int)) := by
  induction l1 with
  | nil => intro h a c; simp [AddButton.loop]
  | cons x rest ih =>
    intro h a c
    by_cases hR : (h.buttons x).Alignment = ButtonAlignment.ButtonRight
    · have hRx : isRight h x = true := by simp [isRight, hR]
      have e1 : AddButton.loop h (x :: rest ++ l2) a c
          = AddButton.loop (h.setButton x { h.buttons x with offsetX := c }) (rest ++ l2) a
              (c - 3) := by
        rw [List.cons_append, AddButton.loop]; dsimp only; rw [if_pos hR]
      have e2 : AddButton.loop h (x :: rest) a c
          = AddButton.loop (h.setButton x { h.buttons x with offsetX := c }) rest a
              (c - 3) := by
        rw [AddButton.loop]; dsimp only; rw [if_pos hR]
      rw [e1, e2, ih, isRight_setButton_offsetX]
      simp only [List.countP_cons, hRx]
      congr 1
      simp
      ring
    · have hRx : isRight h x = false := by simp [isRight, hR]
      have e1 : AddButton.loop h (x :: rest ++ l2) a c
          = AddButton.loop (h.setButton x { h.buttons x with offsetX := a }) (rest ++ l2)
              (a + 3) c := by
        rw [List.cons_append, AddButton.loop]; dsimp only; rw [if_neg hR]
      have e2 : AddButton.loop h (x :: rest) a c
          = AddButton.loop (h.setButton x { h.buttons x with offsetX := a }) rest
              (a + 3) c := by
        rw [AddButton.loop]; dsimp only; rw [if_neg hR]
      rw [e1, e2, ih, isRight_setButton_offsetX]
      simp only [List.countP_cons, hRx]
      congr 1
      simp
      ring

/-- The offsets the loop gives to the buttons of its list depend on the list
and on the alignments only. -/
theorem AddButton_loop_offset_congr (l : List Ptr) :
    ∀ (h g : Heap) (a c : Int),
      (∀ q, (h.buttons q).Alignment = (g.buttons q).Alignment) →
      ∀ q ∈ l, ((AddButton.loop h l a c).buttons q).offsetX
        = ((AddButton.loop g l a c).buttons q).offsetX := by
  induction l with
  | nil => intro h g a c _ q hq; simp at hq
  | cons x rest ih =>
    intro h g a c hal q hq
    by_cases hR : (h.buttons x).Alignment = ButtonAlignment.ButtonRight
    · have hRg : (g.buttons x).Alignment = ButtonAlignment.ButtonRight := by
        rw [← hal x]; exact hR
      have e1 : AddButton.loop h (x :: rest) a c
          = AddButton.loop (h.setButton x { h.buttons x with offsetX := c }) rest a
              (c - 3) := by
        rw [AddButton.loop]; dsimp only; rw [if_pos hR]
      have e2 : AddButton.loop g (x :: rest) a c
          = AddButton.loop (g.setButton x { g.buttons x with offsetX := c }) rest a
              (c - 3) := by
        rw [AddButton.loop]; dsimp only; rw [if_pos hRg]
      rw [e1, e2]
      by_cases hqr : q ∈ rest
      · refine ih _ _ _ _ (fun r => ?_) q hqr
        simp only [setButton_buttons]
        split
        · subst_vars; exact hal _
        · exact hal r
      · have hqx : q = x := by
          rcases List.mem_cons.mp hq with e | e
          · exact e
          · exact absurd e hqr
        subst hqx
        rw [AddButton_loop_frame rest _ _ _ q hqr, AddButton_loop_frame rest _ _ _ q hqr]
        simp
    · have hRg : ¬ (g.buttons x).Alignment = ButtonAlignment.ButtonRight := by
        rw [← hal x]; exact hR
      have e1 : AddButton.loop h (x :: rest) a c
          = AddButton.loop (h.setButton x { h.buttons x with offsetX := a }) rest
              (a + 3) c := by
        rw [AddButton.loop]; dsimp only; rw [if_neg hR]
      have e2 : AddButton.loop g (x :: rest) a c
          = AddButton.loop (g.setButton x { g.buttons x with offsetX := a }) rest
              (a + 3) c := by
        rw [AddButton.loop]; dsimp only; rw [if_neg hRg]
      rw [e1, e2]
      by_cases hqr : q ∈ rest
      · refine ih _ _ _ _ (fun r => ?_) q hqr
        simp only [setButton_buttons]
        split
        · subst_vars; exact hal _
        · exact hal r
      · have hqx : q = x := by
          rcases List.mem_cons.mp hq with e | e
          · exact e
          · exact absurd e hqr
        subst hqx
        rw [AddButton_loop_frame rest _ _ _ q hqr, AddButton_loop_frame rest _ _ _ q hqr]
        simp

/-- The buttons after a non-empty sequence of AddButton calls are those the
loop of the last call leaves. -/
theorem addButtons_buttons_eq_loop (h : Heap) (p : Ptr) (init : List Ptr) (last : Ptr)
    (hempty : (h.windows p).buttons = []) :
    (addButtons h p (init ++ [last])).buttons
      = (AddButton.loop ((addButtons h p init).setWindow p
          { (addButtons h p init).windows p with buttons := init ++ [last] })
          (init ++ [last]) 2 (-3)).buttons := by
  have hw : ((addButtons h p init).windows p).buttons = init := by
    simp [addButtons_windows, hempty]
  rw [addButtons_snoc]
  simp [AddButton, hw]

/-- Running the loop again over the window's own list gives every button of
the list the offset it already has. -/
theorem AddButton_loop_again (h : Heap) (p : Ptr) (bs : List Ptr) (g : Heap)
    (hempty : (h.windows p).buttons = [])
    (hg : ∀ q, (g.buttons q).Alignment = (h.buttons q).Alignment) :
    ∀ q ∈ bs, ((AddButton.loop g bs 2 (-3)).buttons q).offsetX
      = ((addButtons h p bs).buttons q).offsetX := by
  intro q hq
  rcases List.eq_nil_or_concat bs with hnil | ⟨init, last, hcat⟩
  · subst hnil; simp at hq
  · rw [List.concat_eq_append] at hcat
    subst hcat
    rw [addButtons_buttons_eq_loop h p init last hempty]
    refine AddButton_loop_offset_congr _ _ _ _ _ (fun r => ?_) q hq
    rw [hg r]
    simp [addButtons_alignment]

/-- C17: on a window whose buttons `bs` all came from AddButton (a button may
have been added more than once), AddButton(b) for a button b not among them
leaves the offset of every button already present as it was, and gives b the
offset 2 + 3 * (number of buttons already present that are not right-aligned)
when b is not right-aligned, and -3 - 3 * (number of right-aligned buttons
already present) when it is: what a pair of running counters would give. -/
theorem AddButton_is_incremental (h : Heap) (p : Ptr) (bs : List Ptr) (b : Ptr)
    (hempty : (h.windows p).buttons = []) (hb : b ∉ bs) :
    ((addButtons h p bs).windows p).buttons = bs ∧
    (∀ q ∈ bs, ((AddButton (addButtons h p bs) p b).buttons q).offsetX
      = ((addButtons h p bs).buttons q).offsetX) ∧
    (((addButtons h p bs).buttons b).Alignment ≠ ButtonAlignment.ButtonRight →
      ((AddButton (addButtons h p bs) p b).buttons b).offsetX
        = 2 + 3 * (((addButtons h p bs).windows p).buttons.countP
            (fun q => !isRight (addButtons h p bs) q) : Int)) ∧
    (((addButtons h p bs).buttons b).Alignment = ButtonAlignment.ButtonRight →
      ((AddButton (addButtons h p bs) p b).buttons b).offsetX
        = -3 - 3 * (((addButtons h p bs).windows p).buttons.countP
            (fun q => isRight (addButtons h p bs) q) : Int)) := by
  have hw : ((addButtons h p bs).windows p).buttons = bs := by
    simp [addButtons_windows, hempty]
  have hgal : ∀ q, ((((addButtons h p bs).setWindow p
      { (addButtons h p bs).windows p with buttons := bs ++ [b] }).buttons q).Alignment
      = (h.buttons q).Alignment) := by
    intro q
    simp [addButtons_alignment]
  have hgR : isRight ((addButtons h p bs).setWindow p
      { (addButtons h p bs).windows p with buttons := bs ++ [b] })
      = isRight (addButtons h p bs) :=
    isRight_congr _ _ (fun q => by simp)
  have hsplit : (AddButton (addButtons h p bs) p b).buttons
      = (AddButton.loop (AddButton.loop ((addButtons h p bs).setWindow p
            { (addButtons h p bs).windows p with buttons := bs ++ [b] }) bs 2 (-3)) [b]
          (2 + 3 * (bs.countP (fun q => !isRight (addButtons h p bs) q) : Int))
          (-3 - 3 * (bs.countP (fun q => isRight (addButtons h p bs) q) : Int))).buttons := by
    have : (AddButton (addButtons h p bs) p b)
        = AddButton.loop ((addButtons h p bs).setWindow p
            { (addButtons h p bs).windows p with buttons := bs ++ [b] }) (bs ++ [b]) 2 (-3) := by
      simp [AddButton, hw]
    rw [this, AddButton_loop_append, hgR]
  have hbal : ((AddButton.loop ((addButtons h p bs).setWindow p
      { (addButtons h p bs).windows p with buttons := bs ++ [b] }) bs 2 (-3)).buttons b).Alignment
      = ((addButtons h p bs).buttons b).Alignment := by
    rw [AddButton_loop_alignment]; rfl
  refine ⟨hw, ?_, ?_, ?_⟩
  · intro q hq
    have hqb : q ≠ b := fun e => hb (e ▸ hq)
    rw [hsplit]
    have hstep : ∀ (G : Heap) (a c : Int),
        ((AddButton.loop G [b] a c).buttons q) = G.buttons q := by
      intro G a c
      exact AddButton_loop_frame [b] G a c q (by simpa using hqb)
    rw [hstep]
    exact AddButton_loop_again h p bs _ hempty hgal q hq
  · intro hl
    rw [hsplit, hw]
    simp only [AddButton.loop]
    rw [if_neg (by rw [hbal]; exact hl)]
    simp
  · intro hr
    rw [hsplit, hw]
    simp only [AddButton.loop]
    rw [if_pos (by rw [hbal]; exact hr)]
    simp

/-- C17 at window 0 of the sample heap, where button 2 was added twice: after
the buttons 2, 1, 2 (left, right, left again), AddButton(4) keeps the offset
of button 2 and gives the left-aligned button 4 the offset 2 + 3 * 2. -/
theorem AddButton_is_incremental_witness :
    ((AddButton (addButtons sampleHeap 0 [2, 1, 2]) 0 4).buttons 2).offsetX
      = ((addButtons sampleHeap 0 [2, 1, 2]).buttons 2).offsetX ∧
    ((AddButton (addButtons sampleHeap 0 [2, 1, 2]) 0 4).buttons 4).offsetX
      = 2 + 3 * ((((addButtons sampleHeap 0 [2, 1, 2]).windows 0).buttons.countP
          (fun q => !isRight (addButtons sampleHeap 0 [2, 1, 2]) q) : Nat) : Int) :=
  ⟨(AddButton_is_incremental sampleHeap 0 [2, 1, 2] 4 rfl (by decide)).2.1 2 (by decide),
   (AddButton_is_incremental sampleHeap 0 [2, 1, 2] 4 rfl (by decide)).2.2.1 (by decide)⟩

/-! ## C12: Draw and MouseHandler address buttons alike -/

/-- The loop of Draw prints, for every button of the list, the bracketed
symbol one column left of the button's column. -/
theorem Draw_loop_mem (h : Heap) (x y width height : Int) (l : List Ptr) (b : Ptr)
    (hb : b ∈ l) :
    DrawCall.print (bracketed (h.buttons b).Symbol) ((h.buttons b).column x width - 1)
        (if (h.buttons b).offsetY < 0 then (h.buttons b).offsetY + y + height
          else (h.buttons b).offsetY + y)
        9 (x, y, width, height)
      ∈ Draw.loop h x y width height l := by
  induction l with
  | nil => simp at hb
  | cons c rest ih =>
    unfold Draw.loop
    rcases List.mem_cons.mp hb with rfl | hrest
    · simp only [Button.column]
      split <;> split <;> simp
    · exact List.mem_cons_of_mem _ (ih hrest)

/-- On a bordered window Draw makes every call of its button loop, for the
window's rect and button list. -/
theorem Draw_loop_subset (h : Heap) (p : Ptr) (hborder : (h.windows p).border = true)
    (c : DrawCall)
    (hc : c ∈ Draw.loop h (h.windows p).Box.x (h.windows p).Box.y (h.windows p).Box.width
      (h.windows p).Box.height (h.windows p).buttons) :
    c ∈ (Draw h p).2 := by
  cases hroot : (h.windows p).root with
  | none =>
    by_cases hf : ((h.windows p).Box.HasFocus && !(HasFocus (h.windows p))) = true
    · simp [Draw, hroot, hf, hborder, Window.GetRect, Box.GetRect, Box.Blur, hc]
    · simp [Draw, hroot, hf, hborder, Window.GetRect, Box.GetRect, hc]
  | some root =>
    by_cases hf : ((h.windows p).Box.HasFocus && !(HasFocus (h.windows p))) = true
    · simp [Draw, hroot, hf, hborder, Window.GetRect, Box.GetRect, Box.Blur, hc]
    · simp [Draw, hroot, hf, hborder, Window.GetRect, Box.GetRect, hc]

/-- What the handler returns on a primary click, by the first button of the
list in the event column, if the event is on the top row. -/
theorem MouseHandler_click (h : Heap) (p : Ptr) (event : EventMouse) (setFocus : SetFocus)
    (hrow : event.y = (h.windows p).Box.y) (c : Ptr)
    (hc : (h.windows p).buttons.find? (fun q => decide
      (event.x = (h.buttons q).column (h.windows p).Box.x (h.windows p).Box.width)) = some c) :
    MouseHandler h p MouseAction.MouseLeftClick event setFocus
      = { consumed := true, capture := none,
          calls := match (h.buttons c).ClickHandler with
            | some f => [Call.click c f]
            | none => [] } := by
  simp only [MouseHandler, WrapMouseHandler, EventMouse.Position, Window.GetRect, Box.GetRect,
    if_true, hrow, MouseHandler_loop_find, hc]

/-- A button whose action the handler runs on a primary click is the first
button of the list in the event column, and the event is on the top row. -/
theorem MouseHandler_click_source (h : Heap) (p : Ptr) (event : EventMouse)
    (setFocus : SetFocus) (b : Ptr) (f : Nat)
    (hmem : Call.click b f
      ∈ (MouseHandler h p MouseAction.MouseLeftClick event setFocus).calls) :
    event.y = (h.windows p).Box.y ∧
    (h.windows p).buttons.find? (fun q => decide
      (event.x = (h.buttons q).column (h.windows p).Box.x (h.windows p).Box.width)) = some b := by
  by_cases hrow : event.y = (h.windows p).Box.y
  · cases hc : (h.windows p).buttons.find? (fun q => decide
        (event.x = (h.buttons q).column (h.windows p).Box.x (h.windows p).Box.width)) with
    | some c =>
      rw [MouseHandler_click h p event setFocus hrow c hc] at hmem
      cases hch : (h.buttons c).ClickHandler with
      | none => simp [hch] at hmem
      | some g =>
        simp only [hch, List.mem_singleton, Call.click.injEq] at hmem
        exact ⟨hrow, by rw [hmem.1]⟩
    | none =>
      have hall : ∀ q ∈ (h.windows p).buttons,
          event.x ≠ (h.buttons q).column (h.windows p).Box.x (h.windows p).Box.width := by
        intro q hq
        have := List.find?_eq_none.mp hc q hq
        simpa using this
      have hres : (MouseHandler h p MouseAction.MouseLeftClick event setFocus).calls
          = match (h.windows p).root with
            | some _ => [Call.rootMouse MouseAction.MouseLeftClick event setFocus]
            | none => [] := by
        simp only [MouseHandler, WrapMouseHandler, EventMouse.Position, Window.GetRect,
          Box.GetRect, if_true, hrow, MouseHandler_loop_find, hc]
        cases (h.windows p).root <;> rfl
      rw [hres] at hmem
      cases hroot : (h.windows p).root <;> simp [hroot] at hmem
  · have hres : (MouseHandler h p MouseAction.MouseLeftClick event setFocus).calls
        = match (h.windows p).root with
          | some _ => [Call.rootMouse MouseAction.MouseLeftClick event setFocus]
          | none => [] := by
      simp only [MouseHandler, WrapMouseHandler, EventMouse.Position, Window.GetRect,
        Box.GetRect, if_true, if_neg hrow]
      cases (h.windows p).root <;> rfl
    rw [hres] at hmem
    cases hroot : (h.windows p).root <;> simp [hroot] at hmem

/-- C12, as the code has it: for every bordered window of rect
(x, y, width, height) and every button b of it with offsetY zero (AddButton
assigns offsetX only), first in list order among the buttons of its column,
and with its cell inside the window's rect: Draw prints the bracketed symbol
at column (button column - 1) of row y, which puts the glyph in the cell
(button column, y), the button column being x + offset for offset >= 0 and
x + width + offset for offset < 0; a primary click in that cell is consumed by
MouseHandler as a hit on b (b's action runs, nothing else); and a primary
click on which MouseHandler runs b's action is in that cell. -/
theorem Draw_and_MouseHandler_same_cell (h : Heap) (p b : Ptr)
    (hborder : (h.windows p).border = true)
    (hy : (h.buttons b).offsetY = 0)
    (hfirst : (h.windows p).buttons.find? (fun q => decide
      ((h.buttons b).column (h.windows p).Box.x (h.windows p).Box.width
        = (h.buttons q).column (h.windows p).Box.x (h.windows p).Box.width)) = some b)
    (hin : InRect (h.windows p)
      ((h.buttons b).column (h.windows p).Box.x (h.windows p).Box.width)
      (h.windows p).Box.y = true) :
    ∃ call ∈ (Draw h p).2,
      call = DrawCall.print (bracketed (h.buttons b).Symbol)
        ((h.buttons b).column (h.windows p).Box.x (h.windows p).Box.width - 1)
        (h.windows p).Box.y 9 (h.windows p).GetRect ∧
      call.glyphCell
        = some ((h.buttons b).column (h.windows p).Box.x (h.windows p).Box.width,
            (h.windows p).Box.y) ∧
      (h.buttons b).column (h.windows p).Box.x (h.windows p).Box.width
        = (if (h.buttons b).offsetX ≥ 0 then (h.windows p).Box.x + (h.buttons b).offsetX
           else (h.windows p).Box.x + (h.windows p).Box.width + (h.buttons b).offsetX) ∧
      (∀ (event : EventMouse) (setFocus : SetFocus),
        some (event.x, event.y) = call.glyphCell →
        MouseHandler h p MouseAction.MouseLeftClick event setFocus
          = { consumed := true, capture := none,
              calls := match (h.buttons b).ClickHandler with
                | some f => [Call.click b f]
                | none => [] }) ∧
      (∀ (event : EventMouse) (setFocus : SetFocus) (f : Nat),
        Call.click b f ∈ (MouseHandler h p MouseAction.MouseLeftClick event setFocus).calls →
        some (event.x, event.y) = call.glyphCell) := by
  have hb : b ∈ (h.windows p).buttons := List.mem_of_find?_eq_some hfirst
  have hmem := Draw_loop_subset h p hborder _
    (Draw_loop_mem h (h.windows p).Box.x (h.windows p).Box.y (h.windows p).Box.width
      (h.windows p).Box.height (h.windows p).buttons b hb)
  have hrow : (if (h.buttons b).offsetY < 0
      then (h.buttons b).offsetY + (h.windows p).Box.y + (h.windows p).Box.height
      else (h.buttons b).offsetY + (h.windows p).Box.y) = (h.windows p).Box.y := by
    simp [hy]
  rw [hrow] at hmem
  have hcell : (DrawCall.print (bracketed (h.buttons b).Symbol)
      ((h.buttons b).column (h.windows p).Box.x (h.windows p).Box.width - 1)
      (h.windows p).Box.y 9 (h.windows p).GetRect).glyphCell
      = some ((h.buttons b).column (h.windows p).Box.x (h.windows p).Box.width,
          (h.windows p).Box.y) := by
    simp only [InRect, Bool.and_eq_true, decide_eq_true_eq] at hin
    simp only [DrawCall.glyphCell, Window.GetRect, Box.GetRect]
    rw [if_pos (by omega)]
    simp
  refine ⟨_, hmem, rfl, hcell, ?_, ?_, ?_⟩
  · unfold Button.column
    by_cases h0 : (h.buttons b).offsetX < 0
    · have h1 : ¬ (h.buttons b).offsetX ≥ 0 := by omega
      rw [if_pos h0, if_neg h1]; omega
    · have h1 : (h.buttons b).offsetX ≥ 0 := by omega
      rw [if_neg h0, if_pos h1]; omega
  · intro event setFocus hev
    have hev2 := hev.trans hcell
    simp only [Option.some.injEq, Prod.mk.injEq] at hev2
    obtain ⟨hx, hrow2⟩ := hev2
    refine MouseHandler_click h p event setFocus hrow2 b ?_
    rw [hx]
    exact hfirst
  · intro event setFocus f hcall
    obtain ⟨hrow2, hfind⟩ := MouseHandler_click_source h p event setFocus b f hcall
    have hx := List.find?_some hfind
    simp only [decide_eq_true_eq] at hx
    have hsame : some (event.x, event.y)
        = some ((h.buttons b).column (h.windows p).Box.x (h.windows p).Box.width,
            (h.windows p).Box.y) := by
      rw [hrow2, hx]
    exact hsame.trans hcell.symm

/-- C12 on the sample window with buttons, rect (2, 3, 10, 5): the
right-aligned button 1, of offset -3, is printed at column 8 of row 3, its
glyph is in the cell (9, 3), and a primary click at (9, 3) runs its action. -/
theorem Draw_and_MouseHandler_same_cell_witness :
    ∃ call ∈ (Draw sampleButtonsHeap 0).2,
      call = DrawCall.print (bracketed 'X') (9 - 1) 3 9 (2, 3, 10, 5) ∧
      call.glyphCell = some (9, 3) ∧
      MouseHandler sampleButtonsHeap 0 MouseAction.MouseLeftClick { x := 9, y := 3 } 0
        = { consumed := true, capture := none, calls := [Call.click 1 101] } :=
  match Draw_and_MouseHandler_same_cell sampleButtonsHeap 0 1 (by decide) (by decide)
      (by decide) (by decide) with
  | ⟨call, hmem, hcall, hcell, _, hclick, _⟩ =>
    ⟨call, hmem, hcall, hcell, hclick { x := 9, y := 3 } 0 (hcell ▸ rfl)⟩

/-- C12 as stated fails in three ways. On the 5-wide sample window with the
buttons 2 and 1, Draw puts the glyph of button 1 in the cell (4, 3), and a
primary click there runs the action of button 2, not that of button 1. On the
2-wide sample window with button 2, the cell (4, 3) of the button is outside
the clip region, so Draw puts no glyph, and a primary click at (4, 3) is still
a hit on button 2. With the offsetY of button 2 set to 1, Draw puts its glyph
in the cell (4, 4), where a primary click is not consumed, and the click that
runs its action is at (4, 3). -/
theorem glyph_cell_is_not_always_the_hit_cell :
    ((addButtons sampleNarrowHeap 0 [2, 1]).windows 0).border = true ∧
    ((addButtons sampleNarrowHeap 0 [2, 1]).windows 0).buttons = [2, 1] ∧
    ((addButtons sampleNarrowHeap 0 [2, 1]).windows 0).GetRect = (2, 3, 5, 5) ∧
    Draw.loop (addButtons sampleNarrowHeap 0 [2, 1]) 2 3 5 5 [1]
      = [DrawCall.print (bracketed 'X') 3 3 9 (2, 3, 5, 5)] ∧
    DrawCall.print (bracketed 'X') 3 3 9 (2, 3, 5, 5)
      ∈ (Draw (addButtons sampleNarrowHeap 0 [2, 1]) 0).2 ∧
    (DrawCall.print (bracketed 'X') 3 3 9 (2, 3, 5, 5)).glyphCell = some (4, 3) ∧
    (MouseHandler (addButtons sampleNarrowHeap 0 [2, 1]) 0 MouseAction.MouseLeftClick
      { x := 4, y := 3 } 0).calls = [Call.click 2 102] ∧
    Call.click 1 101 ∉ (MouseHandler (addButtons sampleNarrowHeap 0 [2, 1]) 0
      MouseAction.MouseLeftClick { x := 4, y := 3 } 0).calls ∧
    (((addButtons sampleTinyHeap 0 [2]).windows 0).GetRect = (2, 3, 2, 5) ∧
      (Draw (addButtons sampleTinyHeap 0 [2]) 0).2.filterMap DrawCall.glyphCell = [] ∧
      MouseHandler (addButtons sampleTinyHeap 0 [2]) 0 MouseAction.MouseLeftClick
          { x := 4, y := 3 } 0
        = { consumed := true, capture := none, calls := [Call.click 2 102] }) ∧
    ((sampleLowHeap.windows 0).buttons = [2, 1] ∧
      (Draw sampleLowHeap 0).2.filterMap DrawCall.glyphCell = [(4, 4), (9, 3)] ∧
      MouseHandler sampleLowHeap 0 MouseAction.MouseLeftClick { x := 4, y := 4 } 0
        = { consumed := false, capture := none, calls := [] } ∧
      MouseHandler sampleLowHeap 0 MouseAction.MouseLeftClick { x := 4, y := 3 } 0
        = { consumed := true, capture := none, calls := [Call.click 2 102] }) := by
  decide

/-! ## C18: when hit columns are distinct -/

/-- A button that satisfies `P` is not counted among those before it. -/
theorem countP_take_succ_le (P : Ptr → Bool) (l : List Ptr) (i j : Nat) (hi : i < l.length)
    (hij : i < j) (hP : P (l.get ⟨i, hi⟩) = true) :
    (l.take i).countP P + 1 ≤ (l.take j).countP P := by
  have h1 : l.take (i + 1) = l.take i ++ [l.get ⟨i, hi⟩] := by
    rw [List.take_succ, List.getElem?_eq_getElem hi]; rfl
  have h2 : (l.take (i + 1)).countP P = (l.take i).countP P + 1 := by
    have hP1 : P l[i] = true := hP
    rw [h1, List.countP_append]
    simp [hP1]
  have h3 : (l.take (i + 1)).countP P ≤ (l.take j).countP P :=
    List.Sublist.countP_le P (List.take_sublist_take_left l (Nat.succ_le_of_lt hij))
  omega

theorem countP_take_lt_total (P : Ptr → Bool) (l : List Ptr) (i : Nat) (hi : i < l.length)
    (hP : P (l.get ⟨i, hi⟩) = true) :
    (l.take i).countP P + 1 ≤ l.countP P := by
  have := countP_take_succ_le P l i l.length hi hi hP
  simpa using this

theorem countP_sides (h : Heap) (l : List Ptr) :
    l.countP (fun b => isRight h b) + l.countP (fun b => !isRight h b) = l.length := by
  induction l with
  | nil => rfl
  | cons c rest ih =>
    simp only [List.countP_cons, List.length_cons]
    cases isRight h c <;> simp <;> omega

/-- The column of the button at index `i` after the AddButton calls for a
list of distinct buttons on a window without buttons. -/
theorem column_after_addButtons (h : Heap) (p : Ptr) (bs : List Ptr) (x width : Int)
    (hempty : (h.windows p).buttons = []) (hd : bs.Nodup) (i : Nat) (hi : i < bs.length) :
    ((addButtons h p bs).buttons (bs.get ⟨i, hi⟩)).column x width
      = if isRight h (bs.get ⟨i, hi⟩) then x + width - 3 - 3 * (rightBefore h bs i : Int)
        else x + 2 + 3 * (leftBefore h bs i : Int) := by
  unfold Button.column
  rw [addButtons_offsets h p bs hempty hd i hi]
  cases isRight h (bs.get ⟨i, hi⟩)
  · have : ¬ (2 + 3 * (leftBefore h bs i : Int) < 0) := by omega
    simp only [Bool.false_eq_true, if_false, this]
    omega
  · have : (-3 - 3 * (rightBefore h bs i : Int) < 0) := by omega
    simp only [if_true, this]
    omega

/-- On a window at least 3 columns wide per button, buttons at different
indices are in different columns. -/
theorem columns_apart (h : Heap) (p : Ptr) (bs : List Ptr) (x width : Int)
    (hempty : (h.windows p).buttons = []) (hd : bs.Nodup)
    (hwide : width ≥ 3 * (bs.length : Int))
    (i j : Nat) (hi : i < bs.length) (hj : j < bs.length)
    (hcol : ((addButtons h p bs).buttons (bs.get ⟨i, hi⟩)).column x width
      = ((addButtons h p bs).buttons (bs.get ⟨j, hj⟩)).column x width) :
    i = j := by
  rw [column_after_addButtons h p bs x width hempty hd i hi,
    column_after_addButtons h p bs x width hempty hd j hj] at hcol
  have hsides := countP_sides h bs
  cases hRi : isRight h (bs.get ⟨i, hi⟩) <;> cases hRj : isRight h (bs.get ⟨j, hj⟩) <;>
    simp only [hRi, hRj, if_true, if_false, Bool.false_eq_true] at hcol
  · have hLi : (fun b => !isRight h b) (bs.get ⟨i, hi⟩) = true := by
      show (!isRight h (bs.get ⟨i, hi⟩)) = true
      rw [hRi]; rfl
    have hLj : (fun b => !isRight h b) (bs.get ⟨j, hj⟩) = true := by
      show (!isRight h (bs.get ⟨j, hj⟩)) = true
      rw [hRj]; rfl
    rcases Nat.lt_trichotomy i j with hlt | heq | hgt
    · have := countP_take_succ_le (fun b => !isRight h b) bs i j hi hlt hLi
      simp only [leftBefore] at hcol
      omega
    · exact heq
    · have := countP_take_succ_le (fun b => !isRight h b) bs j i hj hgt hLj
      simp only [leftBefore] at hcol
      omega
  · have hLi : (fun b => !isRight h b) (bs.get ⟨i, hi⟩) = true := by
      show (!isRight h (bs.get ⟨i, hi⟩)) = true
      rw [hRi]; rfl
    have h1 := countP_take_lt_total (fun b => !isRight h b) bs i hi hLi
    have h2 := countP_take_lt_total (fun b => isRight h b) bs j hj hRj
    simp only [leftBefore, rightBefore] at hcol
    omega
  · have hLj : (fun b => !isRight h b) (bs.get ⟨j, hj⟩) = true := by
      show (!isRight h (bs.get ⟨j, hj⟩)) = true
      rw [hRj]; rfl
    have h1 := countP_take_lt_total (fun b => !isRight h b) bs j hj hLj
    have h2 := countP_take_lt_total (fun b => isRight h b) bs i hi hRi
    simp only [leftBefore, rightBefore] at hcol
    omega
  · rcases Nat.lt_trichotomy i j with hlt | heq | hgt
    · have := countP_take_succ_le (fun b => isRight h b) bs i j hi hlt hRi
      simp only [rightBefore] at hcol
      omega
    · exact heq
    · have := countP_take_succ_le (fun b => isRight h b) bs j i hj hgt hRj
      simp only [rightBefore] at hcol
      omega

/-- C18: on a window whose n distinct buttons all came from AddButton and
whose width is at least 3 * n, buttons at different places of the list have
different hit columns, and a primary click on the top row in a button's column
runs that very button's action (when it has one) and nothing else. On a
window of width 5, below 3 * 2, a left-aligned and a right-aligned button
share the column, and the click runs the action of the one added first. -/
theorem wide_window_click_reaches_own_button :
    (∀ (h : Heap) (p : Ptr) (bs : List Ptr),
      (h.windows p).buttons = [] → bs.Nodup →
      (h.windows p).Box.width ≥ 3 * (bs.length : Int) →
      ((addButtons h p bs).windows p).buttons = bs ∧
      (∀ (i j : Nat) (hi : i < bs.length) (hj : j < bs.length),
        ((addButtons h p bs).buttons (bs.get ⟨i, hi⟩)).column
            ((addButtons h p bs).windows p).Box.x ((addButtons h p bs).windows p).Box.width
          = ((addButtons h p bs).buttons (bs.get ⟨j, hj⟩)).column
            ((addButtons h p bs).windows p).Box.x ((addButtons h p bs).windows p).Box.width →
        i = j) ∧
      (∀ (i : Nat) (hi : i < bs.length) (event : EventMouse) (setFocus : SetFocus),
        event.y = ((addButtons h p bs).windows p).Box.y →
        event.x = ((addButtons h p bs).buttons (bs.get ⟨i, hi⟩)).column
            ((addButtons h p bs).windows p).Box.x ((addButtons h p bs).windows p).Box.width →
        (MouseHandler (addButtons h p bs) p MouseAction.MouseLeftClick event setFocus).calls
          = (match ((addButtons h p bs).buttons (bs.get ⟨i, hi⟩)).ClickHandler with
             | some f => [Call.click (bs.get ⟨i, hi⟩) f]
             | none => []))) ∧
    ((sampleNarrowHeap.windows 0).Box.width = 5 ∧
      ((addButtons sampleNarrowHeap 0 [2, 1]).buttons 2).Alignment
        = ButtonAlignment.ButtonLeft ∧
      ((addButtons sampleNarrowHeap 0 [2, 1]).buttons 1).Alignment
        = ButtonAlignment.ButtonRight ∧
      ((addButtons sampleNarrowHeap 0 [2, 1]).buttons 2).column 2 5 = 4 ∧
      ((addButtons sampleNarrowHeap 0 [2, 1]).buttons 1).column 2 5 = 4 ∧
      (MouseHandler (addButtons sampleNarrowHeap 0 [2, 1]) 0 MouseAction.MouseLeftClick
        { x := 4, y := 3 } 0).calls = [Call.click 2 102] ∧
      (MouseHandler (addButtons sampleNarrowHeap 0 [1, 2]) 0 MouseAction.MouseLeftClick
        { x := 4, y := 3 } 0).calls = [Call.click 1 101]) := by
  refine ⟨?_, by decide⟩
  intro h p bs hempty hd hwide
  have hw : (addButtons h p bs).windows p
      = { h.windows p with buttons := bs } := by
    simp [addButtons_windows, hempty]
  have hbs : ((addButtons h p bs).windows p).buttons = bs := by rw [hw]
  have hbox : ((addButtons h p bs).windows p).Box = (h.windows p).Box := by rw [hw]
  have apart : ∀ (i j : Nat) (hi : i < bs.length) (hj : j < bs.length),
      ((addButtons h p bs).buttons (bs.get ⟨i, hi⟩)).column
          ((addButtons h p bs).windows p).Box.x ((addButtons h p bs).windows p).Box.width
        = ((addButtons h p bs).buttons (bs.get ⟨j, hj⟩)).column
          ((addButtons h p bs).windows p).Box.x ((addButtons h p bs).windows p).Box.width →
      i = j := by
    intro i j hi hj hcol
    rw [hbox] at hcol
    exact columns_apart h p bs _ _ hempty hd hwide i j hi hj hcol
  refine ⟨hbs, apart, ?_⟩
  intro i hi event setFocus hrow hcol
  have hsome : (((addButtons h p bs).windows p).buttons.find? (fun q => decide
      (event.x = ((addButtons h p bs).buttons q).column
        ((addButtons h p bs).windows p).Box.x
        ((addButtons h p bs).windows p).Box.width))).isSome := by
    rw [List.find?_isSome]
    exact ⟨bs.get ⟨i, hi⟩, by rw [hbs]; exact List.get_mem _ _ _, by simpa using hcol⟩
  obtain ⟨c, hc⟩ := Option.isSome_iff_exists.mp hsome
  have hcmem : c ∈ bs := by
    have := List.mem_of_find?_eq_some hc
    rwa [hbs] at this
  have hccol := List.find?_some hc
  simp only [decide_eq_true_eq] at hccol
  obtain ⟨k, hk, rfl⟩ := List.getElem_of_mem hcmem
  have hki : k = i := apart k i hk hi (by
    simp only [List.get_eq_getElem] at hcol ⊢
    rw [← hccol, ← hcol])
  subst hki
  simp only [MouseHandler, WrapMouseHandler, EventMouse.Position, Window.GetRect,
    Box.GetRect, if_true, hrow, MouseHandler_loop_find, hc, List.get_eq_getElem]

/-- C18 on window 0 of the sample heap, 10 wide, with the buttons 2, 1, 4
(10 >= 3 * 3): a primary click at (7, 3), the column of button 4, runs the
action of button 4. -/
theorem wide_window_click_reaches_own_button_witness :
    (MouseHandler (addButtons sampleHeap 0 [2, 1, 4]) 0 MouseAction.MouseLeftClick
      { x := 7, y := 3 } 0).calls
      = (match ((addButtons sampleHeap 0 [2, 1, 4]).buttons
            ([2, 1, 4].get ⟨2, by decide⟩)).ClickHandler with
         | some f => [Call.click ([2, 1, 4].get ⟨2, by decide⟩) f]
         | none => []) :=
  (wide_window_click_reaches_own_button.1 sampleHeap 0 [2, 1, 4] rfl (by decide)
    (by decide)).2.2 2 (by decide) { x := 7, y := 3 } 0 (by decide) (by decide)

/-! ## The manager's Show, Hide and ShowModal -/

@[simp]
theorem setManager_windows (h : Heap) (p : Ptr) (m : Manager) :
    (h.setManager p m).windows = h.windows := rfl

@[simp]
theorem setManager_buttons (h : Heap) (p : Ptr) (m : Manager) :
    (h.setManager p m).buttons = h.buttons := rfl

@[simp]
theorem setManager_managers (h : Heap) (p : Ptr) (m : Manager) (q : Ptr) :
    (h.setManager p m).managers q = if q = p then m else h.managers q := rfl

theorem sameGeometry_refl (w : Window) : sameGeometry w w := ⟨rfl, rfl, rfl, rfl⟩

theorem sameGeometry_trans {w1 w2 w3 : Window} (h12 : sameGeometry w1 w2)
    (h23 : sameGeometry w2 w3) : sameGeometry w1 w3 :=
  ⟨h12.1.trans h23.1, h12.2.1.trans h23.2.1, h12.2.2.1.trans h23.2.2.1,
    h12.2.2.2.trans h23.2.2.2⟩

theorem sameGeometry_Blur (w : Window) : sameGeometry w.Blur w := by
  unfold Window.Blur
  cases w.root <;> exact ⟨rfl, rfl, rfl, rfl⟩

theorem sameGeometry_Focus (w : Window) : sameGeometry (w.Focus Delegate.setFocus) w := by
  unfold Window.Focus
  cases w.root <;> exact ⟨rfl, rfl, rfl, rfl⟩

theorem HasFocus_Focus (w : Window) : HasFocus (w.Focus Delegate.setFocus) = true := by
  unfold Window.Focus HasFocus
  cases w.root <;> rfl

theorem InRect_congr (w1 w2 : Window) (hr : w1.GetRect = w2.GetRect) (px py : Int) :
    InRect w1 px py = InRect w2 px py := by
  simp only [Window.GetRect, Box.GetRect, Prod.mk.injEq] at hr
  obtain ⟨hx, hy, hw, hh⟩ := hr
  simp [InRect, hx, hy, hw, hh]

/-- Blurring a list of windows touches neither managers nor buttons, and of
the windows only the focus. -/
theorem blur_fold_facts (l : List Ptr) :
    ∀ h : Heap,
      (l.foldl (fun acc q => acc.setWindow q (acc.windows q).Blur) h).managers = h.managers ∧
      (l.foldl (fun acc q => acc.setWindow q (acc.windows q).Blur) h).buttons = h.buttons ∧
      ∀ q, sameGeometry
        ((l.foldl (fun acc q => acc.setWindow q (acc.windows q).Blur) h).windows q)
        (h.windows q) := by
  induction l with
  | nil => intro h; exact ⟨rfl, rfl, fun q => sameGeometry_refl _⟩
  | cons c rest ih =>
    intro h
    obtain ⟨h1, h2, h3⟩ := ih (h.setWindow c (h.windows c).Blur)
    refine ⟨h1, h2, fun q => ?_⟩
    refine sameGeometry_trans (h3 q) ?_
    simp only [setWindow_windows]
    split
    · subst_vars; exact sameGeometry_Blur _
    · exact sameGeometry_refl _

/-- What the manager's Show leaves: the window at the front of the z-order,
the modal stack as it was, every window with its geometry, the buttons as
they were, and the window shown with the focus. -/
theorem Manager_Show_facts (h : Heap) (m w : Ptr) :
    (Manager.Show h m w).managers m
      = { h.managers m with
          windows := (h.managers m).windows.filter (fun q => decide (q ≠ w)) ++ [w] } ∧
    (Manager.Show h m w).buttons = h.buttons ∧
    (∀ q, sameGeometry ((Manager.Show h m w).windows q) (h.windows q)) ∧
    HasFocus ((Manager.Show h m w).windows w) = true := by
  obtain ⟨f1, f2, f3⟩ := blur_fold_facts
    ((h.managers m).windows.filter (fun q => decide (q ≠ w))) h
  refine ⟨?_, ?_, ?_, ?_⟩
  · simp [Manager.Show]
  · simp only [Manager.Show, setManager_buttons, setWindow_buttons]
    exact f2
  · intro q
    simp only [Manager.Show, setManager_windows, setWindow_windows]
    split
    · subst_vars; exact sameGeometry_trans (sameGeometry_Focus _) (f3 _)
    · exact f3 q
  · simp only [Manager.Show, setManager_windows, setWindow_windows, if_true]
    exact HasFocus_Focus _

/-- What the manager's Hide leaves: the window out of the z-order and of the
modal stack, every window with its geometry, the buttons as they were. -/
theorem Manager_Hide_facts (h : Heap) (m w : Ptr) :
    (Manager.Hide h m w).managers m
      = { h.managers m with
          windows := (h.managers m).windows.filter (fun q => decide (q ≠ w))
          modals := (h.managers m).modals.filter (fun q => decide (q ≠ w)) } ∧
    (Manager.Hide h m w).buttons = h.buttons ∧
    (∀ q, sameGeometry ((Manager.Hide h m w).windows q) (h.windows q)) := by
  unfold Manager.Hide
  dsimp only
  split
  · split
    · refine ⟨by simp, rfl, fun q => ?_⟩
      simp only [setWindow_windows, setManager_windows]
      split
      · split
        · subst_vars
          exact sameGeometry_trans (sameGeometry_Focus _) (sameGeometry_Blur _)
        · subst_vars; exact sameGeometry_Focus _
      · split
        · subst_vars; exact sameGeometry_Blur _
        · exact sameGeometry_refl _
    · refine ⟨by simp, rfl, fun q => ?_⟩
      simp only [setWindow_windows, setManager_windows]
      split
      · subst_vars; exact sameGeometry_Blur _
      · exact sameGeometry_refl _
  · exact ⟨by simp, rfl, fun q => sameGeometry_refl _⟩

/-- What the manager's ShowModal leaves: as Show, with the window on top of
the modal stack. -/
theorem Manager_ShowModal_facts (h : Heap) (m w : Ptr) :
    (Manager.ShowModal h m w).managers m
      = { h.managers m with
          windows := (h.managers m).windows.filter (fun q => decide (q ≠ w)) ++ [w]
          modals := (h.managers m).modals.filter (fun q => decide (q ≠ w)) ++ [w] } ∧
    (Manager.ShowModal h m w).buttons = h.buttons ∧
    (∀ q, sameGeometry ((Manager.ShowModal h m w).windows q) (h.windows q)) ∧
    ((Manager.ShowModal h m w).windows w).modal = true := by
  obtain ⟨s1, s2, s3, _⟩ := Manager_Show_facts h m w
  refine ⟨?_, ?_, ?_, ?_⟩
  · simp [Manager.ShowModal, s1]
  · simp only [Manager.ShowModal, setManager_buttons, setWindow_buttons]
    exact s2
  · intro q
    simp only [Manager.ShowModal, setManager_windows, setWindow_windows]
    split
    · subst_vars
      exact sameGeometry_trans ⟨rfl, rfl, rfl, rfl⟩ (s3 _)
    · exact s3 q
  · simp [Manager.ShowModal]

theorem Show_attached (h : Heap) (p m : Ptr) (hm : (h.windows p).manager = some m) :
    Show h p = .ok (Manager.Show h m p) := by
  simp [Show, checkManager_attached _ m hm, hm]

theorem Hide_attached (h : Heap) (p m : Ptr) (hm : (h.windows p).manager = some m) :
    Hide h p = .ok (Manager.Hide h m p) := by
  simp [Hide, checkManager_attached _ m hm, hm]

theorem ShowModal_attached (h : Heap) (p m : Ptr) (hm : (h.windows p).manager = some m) :
    ShowModal h p = .ok (Manager.ShowModal h m p) := by
  simp [ShowModal, checkManager_attached _ m hm, hm]

/-! ## C13: a modal window gates the windows below -/

/-- Dropping the windows below the one just moved to the front leaves that
window alone. -/
theorem dropWhile_ne_filter_concat (l : List Ptr) (a : Ptr) :
    (l.filter (fun q => decide (q ≠ a)) ++ [a]).dropWhile (fun q => decide (q ≠ a)) = [a] := by
  rw [List.dropWhile_append_of_pos]
  · simp
  · intro b hb
    exact (List.mem_filter.mp hb).2

/-- The eligible windows right after ShowModal: the modal window alone. -/
theorem eligible_after_ShowModal (h : Heap) (m w : Ptr) :
    Manager.eligible ((Manager.ShowModal h m w).managers m) = [w] := by
  rw [(Manager_ShowModal_facts h m w).1]
  simp only [Manager.eligible, List.getLast?_concat]
  exact dropWhile_ne_filter_concat _ _

/-- C13: with a window N shown and then a window M shown with ShowModal (both
wired to the same manager), a click at a position inside N's rect but outside
M's rect is swallowed by the manager: the event is consumed, no window's mouse
handler is invoked (so not N's) and no callback runs, N's state is as it was
before the click, and M is still on top of the modal stack. -/
theorem modal_swallows_click_below (h : Heap) (m N M : Ptr) (event : EventMouse)
    (setFocus : SetFocus)
    (hN : (h.windows N).manager = some m) (hM : (h.windows M).manager = some m)
    (hin : InRect (h.windows N) event.x event.y = true)
    (hout : InRect (h.windows M) event.x event.y = false) :
    ∃ h1 h2, Show h N = .ok h1 ∧ ShowModal h1 M = .ok h2 ∧
      InRect (h2.windows N) event.x event.y = true ∧
      InRect (h2.windows M) event.x event.y = false ∧
      (h2.windows M).modal = true ∧
      (Manager.MouseHandler h2 m MouseAction.MouseLeftClick event setFocus).consumed = true ∧
      (Manager.MouseHandler h2 m MouseAction.MouseLeftClick event setFocus).handlers = [] ∧
      (Manager.MouseHandler h2 m MouseAction.MouseLeftClick event setFocus).calls = [] ∧
      (Manager.MouseHandler h2 m MouseAction.MouseLeftClick event setFocus).heap.windows N
        = h2.windows N ∧
      ((Manager.MouseHandler h2 m MouseAction.MouseLeftClick event setFocus).heap.managers
        m).modals.getLast? = some M := by
  obtain ⟨_, _, s3, _⟩ := Manager_Show_facts h m N
  have hM1 : ((Manager.Show h m N).windows M).manager = some m := by
    rw [(s3 M).2.2.2]; exact hM
  obtain ⟨m1, _, m3, m4⟩ := Manager_ShowModal_facts (Manager.Show h m N) m M
  have hNrect : InRect ((Manager.ShowModal (Manager.Show h m N) m M).windows N) event.x event.y
      = true := by
    rw [InRect_congr _ _ (sameGeometry_trans (m3 N) (s3 N)).1]; exact hin
  have hMrect : InRect ((Manager.ShowModal (Manager.Show h m N) m M).windows M) event.x event.y
      = false := by
    rw [InRect_congr _ _ (sameGeometry_trans (m3 M) (s3 M)).1]; exact hout
  have hres : Manager.MouseHandler (Manager.ShowModal (Manager.Show h m N) m M) m
      MouseAction.MouseLeftClick event setFocus
      = { consumed := true, capture := none, handlers := [], calls := [],
          heap := Manager.ShowModal (Manager.Show h m N) m M } := by
    simp only [Manager.MouseHandler, EventMouse.Position, eligible_after_ShowModal,
      List.reverse_singleton, List.find?_cons, hMrect, List.find?_nil]
    simp [m1]
  refine ⟨_, _, Show_attached h N m hN, ShowModal_attached _ M m hM1, hNrect, hMrect, m4,
    ?_, ?_, ?_, ?_, ?_⟩
  · rw [hres]
  · rw [hres]
  · rw [hres]
  · rw [hres]
  · rw [hres, m1]
    simp only [List.getLast?_concat]

/-- C13 on the sample heap with two windows: window 0 shown, window 1 shown
modal, and a click at (3, 4), inside the rect of window 0 only. -/
theorem modal_swallows_click_below_witness :
    ∃ h1 h2, Show sampleTwoHeap 0 = .ok h1 ∧ ShowModal h1 1 = .ok h2 ∧
      InRect (h2.windows 0) 3 4 = true ∧
      InRect (h2.windows 1) 3 4 = false ∧
      (h2.windows 1).modal = true ∧
      (Manager.MouseHandler h2 0 MouseAction.MouseLeftClick { x := 3, y := 4 } 0).consumed
        = true ∧
      (Manager.MouseHandler h2 0 MouseAction.MouseLeftClick { x := 3, y := 4 } 0).handlers
        = [] ∧
      (Manager.MouseHandler h2 0 MouseAction.MouseLeftClick { x := 3, y := 4 } 0).calls = [] ∧
      (Manager.MouseHandler h2 0 MouseAction.MouseLeftClick { x := 3, y := 4 } 0).heap.windows 0
        = h2.windows 0 ∧
      ((Manager.MouseHandler h2 0 MouseAction.MouseLeftClick
        { x := 3, y := 4 } 0).heap.managers 0).modals.getLast? = some 1 :=
  modal_swallows_click_below sampleTwoHeap 0 0 1 { x := 3, y := 4 } 0 rfl rfl
    (by decide) (by decide)

/-! ## C14: the front window takes the click -/

/-- Dropping windows up to one that is in the z-order keeps the front window. -/
theorem dropWhile_ne_keeps_last (l : List Ptr) (a b : Ptr) (ha : a ∈ l ++ [b]) :
    ∃ pre, (l ++ [b]).dropWhile (fun q => decide (q ≠ a)) = pre ++ [b] := by
  induction l with
  | nil =>
    have hab : a = b := by simpa using ha
    subst hab
    exact ⟨[], by simp⟩
  | cons c rest ih =>
    by_cases hc : c = a
    · subst hc
      exact ⟨c :: rest, by simp⟩
    · have ha2 : a ∈ rest ++ [b] := by
        rcases List.mem_cons.mp ha with e | e
        · exact absurd e.symm hc
        · exact e
      obtain ⟨pre, hpre⟩ := ih ha2
      refine ⟨pre, ?_⟩
      rw [List.cons_append, List.dropWhile_cons_of_pos (by simpa using hc)]
      exact hpre

/-- Whatever the modal stack, as long as its windows are in the z-order, the
front window of the z-order is the front eligible window. -/
theorem eligible_keeps_front (mgr : Manager) (l : List Ptr) (b : Ptr)
    (hw : mgr.windows = l ++ [b]) (hwf : ∀ q ∈ mgr.modals, q ∈ mgr.windows) :
    ∃ pre, Manager.eligible mgr = pre ++ [b] := by
  unfold Manager.eligible
  cases htop : mgr.modals.getLast? with
  | none => exact ⟨l, hw⟩
  | some top =>
    have hmem : top ∈ mgr.modals := List.mem_of_getLast?_eq_some htop
    have := hwf top hmem
    rw [hw] at this ⊢
    exact dropWhile_ne_keeps_last l top b this

/-- C14: with windows A and B wired to the same manager (whose modal windows,
if any, are in its z-order), A shown first and B shown second, B is at the
front of the z-order with A right below it, and a click at any position inside
both rects is consumed through the mouse handler of B alone: A's mouse handler
is not invoked, and the callbacks that run are those of B's handler. -/
theorem front_window_takes_click (h : Heap) (m A B : Ptr) (event : EventMouse)
    (setFocus : SetFocus)
    (hA : (h.windows A).manager = some m) (hB : (h.windows B).manager = some m)
    (hAB : A ≠ B)
    (hwf : ∀ q ∈ (h.managers m).modals, q ∈ (h.managers m).windows)
    (hinA : InRect (h.windows A) event.x event.y = true)
    (hinB : InRect (h.windows B) event.x event.y = true) :
    ∃ h1 h2, Show h A = .ok h1 ∧ Show h1 B = .ok h2 ∧
      (∃ below, (h2.managers m).windows = below ++ [A, B]) ∧
      InRect (h2.windows A) event.x event.y = true ∧
      InRect (h2.windows B) event.x event.y = true ∧
      (Manager.MouseHandler h2 m MouseAction.MouseLeftClick event setFocus).consumed = true ∧
      (Manager.MouseHandler h2 m MouseAction.MouseLeftClick event setFocus).handlers = [B] ∧
      A ∉ (Manager.MouseHandler h2 m MouseAction.MouseLeftClick event setFocus).handlers ∧
      (Manager.MouseHandler h2 m MouseAction.MouseLeftClick event setFocus).calls
        = (MouseHandler h2 B MouseAction.MouseLeftClick event setFocus).calls := by
  obtain ⟨a1, _, a3, _⟩ := Manager_Show_facts h m A
  have hB1 : ((Manager.Show h m A).windows B).manager = some m := by
    rw [(a3 B).2.2.2]; exact hB
  obtain ⟨b1, _, b3, _⟩ := Manager_Show_facts (Manager.Show h m A) m B
  have hwin : ((Manager.Show (Manager.Show h m A) m B).managers m).windows
      = (((h.managers m).windows.filter (fun q => decide (q ≠ A))).filter
          (fun q => decide (q ≠ B)) ++ [A]) ++ [B] := by
    rw [b1, a1]
    simp [List.filter_append, hAB]
  have hmod : ((Manager.Show (Manager.Show h m A) m B).managers m).modals
      = (h.managers m).modals := by
    rw [b1, a1]
  have hwf2 : ∀ q ∈ ((Manager.Show (Manager.Show h m A) m B).managers m).modals,
      q ∈ ((Manager.Show (Manager.Show h m A) m B).managers m).windows := by
    intro q hq
    rw [hmod] at hq
    have hq0 := hwf q hq
    rw [hwin]
    by_cases hqB : q = B
    · subst hqB; simp
    · by_cases hqA : q = A
      · subst hqA; simp
      · simp [List.mem_filter, hq0, hqA, hqB]
  obtain ⟨pre, hpre⟩ := eligible_keeps_front _ _ B hwin hwf2
  have hArect : InRect ((Manager.Show (Manager.Show h m A) m B).windows A) event.x event.y
      = true := by
    rw [InRect_congr _ _ (sameGeometry_trans (b3 A) (a3 A)).1]; exact hinA
  have hBrect : InRect ((Manager.Show (Manager.Show h m A) m B).windows B) event.x event.y
      = true := by
    rw [InRect_congr _ _ (sameGeometry_trans (b3 B) (a3 B)).1]; exact hinB
  have hres : Manager.MouseHandler (Manager.Show (Manager.Show h m A) m B) m
      MouseAction.MouseLeftClick event setFocus
      = { consumed := true,
          capture := (MouseHandler (Manager.Show (Manager.Show h m A) m B) B
            MouseAction.MouseLeftClick event setFocus).capture,
          handlers := [B],
          calls := (MouseHandler (Manager.Show (Manager.Show h m A) m B) B
            MouseAction.MouseLeftClick event setFocus).calls,
          heap := Manager.Show (Manager.Show h m A) m B } := by
    simp only [Manager.MouseHandler, EventMouse.Position, hpre, List.reverse_append,
      List.reverse_singleton, List.singleton_append, List.find?_cons, hBrect]
  refine ⟨_, _, Show_attached h A m hA, Show_attached _ B m hB1,
    ⟨((h.managers m).windows.filter (fun q => decide (q ≠ A))).filter
      (fun q => decide (q ≠ B)), ?_⟩, hArect, hBrect, ?_, ?_, ?_, ?_⟩
  · rw [hwin]; simp
  · rw [hres]
  · rw [hres]
  · rw [hres]; simpa using hAB
  · rw [hres]

/-- C14 on the sample heap with two windows: window 0 shown, then window 1,
and a click at (9, 6), inside both rects. -/
theorem front_window_takes_click_witness :
    ∃ h1 h2, Show sampleTwoHeap 0 = .ok h1 ∧ Show h1 1 = .ok h2 ∧
      (∃ below, (h2.managers 0).windows = below ++ [0, 1]) ∧
      InRect (h2.windows 0) 9 6 = true ∧
      InRect (h2.windows 1) 9 6 = true ∧
      (Manager.MouseHandler h2 0 MouseAction.MouseLeftClick { x := 9, y := 6 } 0).consumed
        = true ∧
      (Manager.MouseHandler h2 0 MouseAction.MouseLeftClick { x := 9, y := 6 } 0).handlers
        = [1] ∧
      0 ∉ (Manager.MouseHandler h2 0 MouseAction.MouseLeftClick { x := 9, y := 6 } 0).handlers ∧
      (Manager.MouseHandler h2 0 MouseAction.MouseLeftClick { x := 9, y := 6 } 0).calls
        = (MouseHandler h2 1 MouseAction.MouseLeftClick { x := 9, y := 6 } 0).calls :=
  front_window_takes_click sampleTwoHeap 0 0 1 { x := 9, y := 6 } 0 rfl rfl (by decide)
    (by intro q hq; simp [sampleTwoHeap, sampleHeap, Heap.setWindow] at hq)
    (by decide) (by decide)

/-! ## C15: Hide then Show -/

/-- C15: for every window w wired to a manager, Hide(w) followed by Show(w)
returns normally; Hide takes w out of the z-order; after Show, w's rect, title
and button list are as they were before Hide, every button (so every offset)
is as it was, w is at the front of the z-order, above the other windows in
their old order, and w has the focus. -/
theorem hide_then_show_keeps_window (h : Heap) (p m : Ptr)
    (hm : (h.windows p).manager = some m) :
    ∃ h1 h2, Hide h p = .ok h1 ∧ p ∉ (h1.managers m).windows ∧ Show h1 p = .ok h2 ∧
      (h2.windows p).GetRect = (h.windows p).GetRect ∧
      (h2.windows p).Box.title = (h.windows p).Box.title ∧
      (h2.windows p).buttons = (h.windows p).buttons ∧
      (∀ b, h2.buttons b = h.buttons b) ∧
      (h2.managers m).windows
        = (h.managers m).windows.filter (fun q => decide (q ≠ p)) ++ [p] ∧
      (h2.managers m).windows.getLast? = some p ∧
      HasFocus (h2.windows p) = true := by
  obtain ⟨d1, d2, d3⟩ := Manager_Hide_facts h m p
  have hm1 : ((Manager.Hide h m p).windows p).manager = some m := by
    rw [(d3 p).2.2.2]; exact hm
  obtain ⟨s1, s2, s3, s4⟩ := Manager_Show_facts (Manager.Hide h m p) m p
  have hgeo := sameGeometry_trans (s3 p) (d3 p)
  refine ⟨_, _, Hide_attached h p m hm, ?_, Show_attached _ p m hm1, hgeo.1, hgeo.2.1,
    hgeo.2.2.1, ?_, ?_, ?_, s4⟩
  · rw [d1]
    simp [List.mem_filter]
  · intro b
    rw [s2, d2]
  · rw [s1, d1]
    simp [List.filter_filter]
  · rw [s1]
    simp only [List.getLast?_concat]

/-- C15 on the sample heap of shown windows, z-order [1, 0] with the focus on
window 0, which has the title "Window0" and the buttons 2 and 1. Hide and Show
of window 0 (at the front, focused): Hide takes it out of the z-order, Show
brings it back to the front with rect, title and buttons as before.
Hide and Show of window 1 (at the back, not focused): it ends at the front,
z-order [0, 1], with the focus. -/
theorem hide_then_show_keeps_window_witness :
    (sampleShownHeap.managers 0).windows = [1, 0] ∧
    HasFocus (sampleShownHeap.windows 0) = true ∧
    HasFocus (sampleShownHeap.windows 1) = false ∧
    (∃ h1 h2, Hide sampleShownHeap 0 = .ok h1 ∧ 0 ∉ (h1.managers 0).windows ∧
      Show h1 0 = .ok h2 ∧
      (h2.windows 0).GetRect = (2, 3, 10, 5) ∧
      (h2.windows 0).Box.title = "Window0" ∧
      (h2.windows 0).buttons = [2, 1] ∧
      (∀ b, h2.buttons b = sampleShownHeap.buttons b) ∧
      (h2.managers 0).windows = [1, 0] ∧
      (h2.managers 0).windows.getLast? = some 0 ∧
      HasFocus (h2.windows 0) = true) ∧
    (∃ h1 h2, Hide sampleShownHeap 1 = .ok h1 ∧ 1 ∉ (h1.managers 0).windows ∧
      Show h1 1 = .ok h2 ∧
      (h2.windows 1).GetRect = (8, 5, 10, 5) ∧
      (h2.windows 1).Box.title = "" ∧
      (h2.windows 1).buttons = [] ∧
      (∀ b, h2.buttons b = sampleShownHeap.buttons b) ∧
      (h2.managers 0).windows = [0, 1] ∧
      (h2.managers 0).windows.getLast? = some 1 ∧
      HasFocus (h2.windows 1) = true) :=
  ⟨by decide, by decide, by decide,
   hide_then_show_keeps_window sampleShownHeap 0 0 rfl,
   hide_then_show_keeps_window sampleShownHeap 1 0 rfl⟩

end Winman
